import Mathlib

/-!
Verification of the Minesweeper grid/game-state engine (`src/game.cpp`).

The development shallowly embeds the engine's data model and operations:
`std::vector<std::vector<Cell>>` becomes `List (List Cell)`, the C++ `int`
members become `Int`, the recursive flood fill `Game::RevealCell` becomes a
fuel-indexed recursion (the fuel bounds the recursion depth; every recursive
activation of the C++ code consumes one Hidden cell, so `n*n + 1` units of
fuel reproduce the source behaviour exactly), and the binary save file
becomes a list of typed records, one per fixed-width `file.write`/`file.read`
call (the reads in `Game::LoadGame` match the writes of `Game::SaveGame` in
order and width).  The elapsed-time member `gameTime` is a C++ `float` that
the engine only stores and copies byte-wise during save/load, so it is
modelled as its raw 32-bit pattern (a `Nat`); no arithmetic on it is needed.
-/

namespace Minesweeper

/-- Cell states, from `globals.h`: `enum class CellState { HIDDEN, REVEALED, FLAGGED }`. -/
inductive CellState where
| HIDDEN
| REVEALED
| FLAGGED
deriving DecidableEq, Repr

/-- A grid cell, from `game.h`: `struct Cell { bool hasMine; CellState state; int adjacentMines; }`. -/
structure Cell where
hasMine : Bool
state : CellState
adjacentMines : Int
deriving DecidableEq, Repr

/-- The value-initialized / explicitly initialized cell `{ false, CellState::HIDDEN, 0 }`. -/
def defaultCell : Cell := ⟨false, CellState.HIDDEN, 0⟩

/-- The grid type `std::vector<std::vector<Cell>>`. -/
abbrev Grid : Type := List (List Cell)

/-- Read `grid[r][c]`; out-of-range access yields `defaultCell` (all in-source
accesses are guarded by `IsValidCell` or by the loop bounds). -/
def getCell (g : Grid) (r c : Nat) : Cell := (g.getD r []).getD c defaultCell

/-- Write `grid[r][c] = f grid[r][c]`; a no-op out of range. -/
def updateGrid (g : Grid) (r c : Nat) (f : Cell → Cell) : Grid :=
List.set g r ((g.getD r []).set c (f (getCell g r c)))

/-- `grid[r][c].state = st`. -/
def setCellState (g : Grid) (r c : Nat) (st : CellState) : Grid :=
updateGrid g r c (fun cell => { cell with state := st })

/-- The engine state: the `Game` members that the grid/game-state engine reads
and writes (`game.h`).  Rendering-only members (textures, offsets, menus) are
outside the model.  `gameTime` is the raw 32-bit pattern of the `float` member. -/
structure GameState where
currentGridSize : Int
grid : Grid
gameOver : Bool
gameWon : Bool
waitingForNextLevel : Bool
waitingForGameOver : Bool
gameTime : Nat
remainingCells : Int
remainingMines : Int
deriving DecidableEq, Repr

/-- `Game::IsValidCell` on explicit bounds:
`row >= 0 && row < n && col >= 0 && col < n`. -/
def isValidRC (n : Int) (row col : Int) : Bool :=
decide (0 ≤ row ∧ row < n ∧ 0 ≤ col ∧ col < n)

/-- `Game::IsValidCell(row, col)`. -/
def IsValidCell (s : GameState) (row col : Int) : Bool :=
isValidRC s.currentGridSize row col

/-- Read `grid[row][col]` with `int` coordinates. -/
def cellAtG (g : Grid) (row col : Int) : Cell :=
if 0 ≤ row ∧ 0 ≤ col then getCell g row.toNat col.toNat else defaultCell

/-- Read `grid[row][col]` of the session grid. -/
def cellAt (s : GameState) (row col : Int) : Cell := cellAtG s.grid row col

/-- The nine offsets enumerated by `for (dr = -1; dr <= 1; ++dr) for (dc = -1; dc <= 1; ++dc)`
without a center skip, as in `Game::CalculateAdjacentMines` and the cascade in
`Game::RevealCell`. -/
def offsets9 : List (Int × Int) :=
[(-1, -1), (-1, 0), (-1, 1), (0, -1), (0, 0), (0, 1), (1, -1), (1, 0), (1, 1)]

/-- The eight offsets enumerated with the `if (i == 0 && j == 0) continue;` center skip,
as in `Game::RevealNeighboringMines` and `Game::RevealAdjacentCells`. -/
def offsets8 : List (Int × Int) :=
[(-1, -1), (-1, 0), (-1, 1), (0, -1), (0, 1), (1, -1), (1, 0), (1, 1)]

/-- All grid positions in row-major order, the iteration order of the
`for (row ...) for (col ...)` loops. -/
def allPairs (n : Nat) : List (Nat × Nat) := List.range n ×ˢ List.range n

/-- `Game::CalculateMineCount`:
`int totalCells = n*n; int mineCount = static_cast<int>(totalCells * 0.15f); return MAX(1, mineCount);`.
The float literal `0.15f` is exactly `5033165 / 2^25`; the truncating cast of the
(once-rounded) float product agrees with truncating the exact rational product for
every grid size the engine can reach (the product is never within one ulp below an
integer for `n ≤ 20`), so the cast is modelled by exact natural division. -/
def CalculateMineCount (n : Nat) : Nat :=
max 1 (n * n * 5033165 / 33554432)

/-- `Game::InitializeGrid`: an `n × n` grid of `{ false, CellState::HIDDEN, 0 }`. -/
def InitializeGrid (n : Nat) : Grid :=
List.replicate n (List.replicate n defaultCell)

/-- The corner test in `Game::PlaceMines`. -/
def isCornerCell (n : Int) (row col : Int) : Bool :=
(row == 0 && col == 0) || (row == 0 && col == n - 1) ||
(row == n - 1 && col == 0) || (row == n - 1 && col == n - 1)

/-- `grid[row][col].hasMine = true`. -/
def setMine (g : Grid) (r c : Nat) : Grid :=
updateGrid g r c (fun cell => { cell with hasMine := true })

/-- The `while (minesPlaced < minesToPlace)` loop body of `Game::PlaceMines`.
`draws` is the stream of successive outputs of `dis(gen)` (pairs drawn from
`uniform_int_distribution<>(0, n-1)`); each iteration consumes one draw, skips
corners and already-mined cells, and otherwise places a mine.  The result is
`none` when the supplied finite stream is exhausted before placement finishes. -/
def placeMinesLoop (n : Int) : List (Int × Int) → Nat → Grid → Option Grid
| _, 0, g => some g
| [], _ + 1, _ => none
| (row, col) :: draws, need + 1, g =>
  if isCornerCell n row col || (cellAtG g row col).hasMine then
    placeMinesLoop n draws (need + 1) g
  else
    placeMinesLoop n draws need (setMine g row.toNat col.toNat)

/-- `Game::PlaceMines` on the grid (the function also sets
`remainingMines = minesToPlace`, recorded by the caller of this grid part). -/
def PlaceMines (n : Int) (draws : List (Int × Int)) (g : Grid) : Option Grid :=
placeMinesLoop n draws (CalculateMineCount n.toNat) g

/-- The inner neighbour count of `Game::CalculateAdjacentMines`: the number of
offsets `(dr, dc)` with `IsValidCell(row+dr, col+dc) && grid[row+dr][col+dc].hasMine`
(the center offset is included by the source loop; it contributes nothing for a
non-mine center). -/
def adjMineCount (n : Int) (g : Grid) (row col : Int) : Nat :=
offsets9.countP (fun d =>
  isValidRC n (row + d.1) (col + d.2) && (cellAtG g (row + d.1) (col + d.2)).hasMine)

/-- The claim's own neighbourhood count (stated from the spec's words, for
comparison with the code's `adjMineCount`): the number of mined cells among the
8-connected Moore neighbours of `(r, c)`, with the neighbourhood clipped at the
grid edges. -/
def mooreNeighborMineCount (n : Int) (g : Grid) (r c : Nat) : Nat :=
offsets8.countP (fun d =>
  isValidRC n ((r : Int) + d.1) ((c : Int) + d.2) &&
  (cellAtG g ((r : Int) + d.1) ((c : Int) + d.2)).hasMine)

/-- One iteration of `Game::CalculateAdjacentMines`: for a non-mine cell, store
the neighbour count into `adjacentMines`. -/
def calcAdjStep (n : Int) (g : Grid) (p : Nat × Nat) : Grid :=
if (getCell g p.1 p.2).hasMine then g
else updateGrid g p.1 p.2 (fun cell =>
  { cell with adjacentMines := (adjMineCount n g (p.1 : Int) (p.2 : Int) : Int) })

/-- `Game::CalculateAdjacentMines`: the row-major double loop. -/
def CalculateAdjacentMines (n : Int) (g : Grid) : Grid :=
(allPairs n.toNat).foldl (calcAdjStep n) g

/-- One iteration of `Game::RevealAllMines`: `if (grid[row][col].hasMine) state = REVEALED`. -/
def revealMineStep (g : Grid) (p : Nat × Nat) : Grid :=
if (getCell g p.1 p.2).hasMine then setCellState g p.1 p.2 CellState.REVEALED else g

/-- The grid effect of `Game::RevealAllMines`: the row-major double loop. -/
def revealAllMinesGrid (n : Nat) (g : Grid) : Grid :=
(allPairs n).foldl revealMineStep g

/-- `Game::RevealAllMines` (it mutates only cell states). -/
def RevealAllMines (s : GameState) : GameState :=
{ s with grid := revealAllMinesGrid s.currentGridSize.toNat s.grid }

/-- `Game::RevealNeighboringMines(row, col)`: over the eight neighbours, reveal
those that are valid and mined. -/
def RevealNeighboringMines (n : Int) (g : Grid) (row col : Int) : Grid :=
offsets8.foldl (fun g d =>
  if isValidRC n (row + d.1) (col + d.2) && (cellAtG g (row + d.1) (col + d.2)).hasMine then
    setCellState g (row + d.1).toNat (col + d.2).toNat CellState.REVEALED
  else g) g

/-- `Game::CheckWinCondition`:
`if (remainingCells == 0) { gameOver = true; gameWon = true; waitingForNextLevel = true; }`. -/
def CheckWinCondition (s : GameState) : GameState :=
if s.remainingCells = 0 then
  { s with gameOver := true, gameWon := true, waitingForNextLevel := true }
else s

/-- The first two mutations of a successful `Game::RevealCell`:
`grid[row][col].state = CellState::REVEALED; remainingCells--;` (lines 1211-1212;
the decrement is unconditional in the source). -/
def revealStep (s : GameState) (row col : Int) : GameState :=
{ s with grid := setCellState s.grid row.toNat col.toNat CellState.REVEALED,
         remainingCells := s.remainingCells - 1 }

/-- `Game::RevealCell(row, col)`, indexed by recursion fuel.  The source guards,
mutations and the cascade loop are reproduced verbatim; each recursive activation
of the source consumes a Hidden cell, so any fuel of at least `n*n + 1` yields
the source behaviour. -/
def revealCellFuel : Nat → GameState → Int → Int → GameState
| 0, s, _, _ => s
| fuel + 1, s, row, col =>
  if IsValidCell s row col && (cellAt s row col).state == CellState.HIDDEN then
    if (cellAt (revealStep s row col) row col).hasMine then
      { revealStep s row col with
          gameOver := true, gameWon := false, waitingForGameOver := true,
          grid := revealAllMinesGrid (revealStep s row col).currentGridSize.toNat
                    (revealStep s row col).grid }
    else
      CheckWinCondition
        (if (cellAt (revealStep s row col) row col).adjacentMines == 0 then
          offsets9.foldl (fun acc d =>
            if IsValidCell acc (row + d.1) (col + d.2) &&
               (cellAt acc (row + d.1) (col + d.2)).state == CellState.HIDDEN then
              revealCellFuel fuel acc (row + d.1) (col + d.2)
            else acc) (revealStep s row col)
        else revealStep s row col)
  else s

/-- `Game::RevealCell(row, col)` with adequate fuel. -/
def RevealCell (s : GameState) (row col : Int) : GameState :=
revealCellFuel (s.currentGridSize.toNat * s.currentGridSize.toNat + 1) s row col

/-- The flag-toggle input path of `Game::Update` (desktop right click,
also the mobile long tap): `HIDDEN -> FLAGGED`, `FLAGGED -> HIDDEN`, otherwise
no grid mutation. -/
def ToggleFlag (s : GameState) (row col : Int) : GameState :=
if IsValidCell s row col then
  match (cellAt s row col).state with
  | CellState.HIDDEN => { s with grid := setCellState s.grid row.toNat col.toNat CellState.FLAGGED }
  | CellState.FLAGGED => { s with grid := setCellState s.grid row.toNat col.toNat CellState.HIDDEN }
  | CellState.REVEALED => s
else s

/-- The flagged-neighbour count of `Game::RevealAdjacentCells`. -/
def flaggedNeighborCount (s : GameState) (row col : Int) : Nat :=
offsets8.countP (fun d =>
  IsValidCell s (row + d.1) (col + d.2) &&
  (cellAt s (row + d.1) (col + d.2)).state == CellState.FLAGGED)

/-- The misflag detection of `Game::RevealAdjacentCells`: some valid flagged
neighbour is not a mine (the source loop breaks at the first hit; without side
effects this equals the existence test). -/
def chordMistake (s : GameState) (row col : Int) : Bool :=
offsets8.any (fun d =>
  IsValidCell s (row + d.1) (col + d.2) &&
  (cellAt s (row + d.1) (col + d.2)).state == CellState.FLAGGED &&
  !(cellAt s (row + d.1) (col + d.2)).hasMine)

/-- The final reveal loop of `Game::RevealAdjacentCells`: over the eight
neighbours, skip flagged cells; on a mined non-flagged neighbour reveal only its
neighbouring mines, set the loss flags and return early; otherwise `RevealCell`. -/
def chordRevealLoop (row col : Int) : GameState → List (Int × Int) → GameState
| s, [] => s
| s, d :: rest =>
  if IsValidCell s (row + d.1) (col + d.2) &&
     !((cellAt s (row + d.1) (col + d.2)).state == CellState.FLAGGED) then
    if (cellAt s (row + d.1) (col + d.2)).hasMine then
      { s with grid := RevealNeighboringMines s.currentGridSize s.grid (row + d.1) (col + d.2),
               gameOver := true, waitingForGameOver := true }
    else chordRevealLoop row col (RevealCell s (row + d.1) (col + d.2)) rest
  else chordRevealLoop row col s rest

/-- `Game::RevealAdjacentCells(row, col)`. -/
def RevealAdjacentCells (s : GameState) (row col : Int) : GameState :=
if (flaggedNeighborCount s row col : Int) = (cellAt s row col).adjacentMines then
  if chordMistake s row col then
    { s with grid := RevealNeighboringMines s.currentGridSize s.grid row col,
             gameOver := true, waitingForGameOver := true }
  else chordRevealLoop row col s offsets8
else s

/-- The chord-reveal entry point: `Game::Update` dispatches to
`RevealAdjacentCells` only when `IsValidCell(row, col)` and the target cell is
`REVEALED` with `adjacentMines > 0` (desktop two-button path, lines 216-224 and
238-242; mobile tap path, line 191). -/
def ChordReveal (s : GameState) (row col : Int) : GameState :=
if IsValidCell s row col && (cellAt s row col).state == CellState.REVEALED &&
   decide (0 < (cellAt s row col).adjacentMines) then
  RevealAdjacentCells s row col
else s

/-- One typed record of the save file: each constructor stands for one
fixed-width `file.write`/`file.read` of `Game::SaveGame`/`Game::LoadGame`
(`int`, `bool`, `CellState` enum, or the four raw bytes of the `float`). -/
inductive SaveField where
| intF (v : Int)
| boolF (b : Bool)
| stateF (st : CellState)
| floatF (bits : Nat)
deriving DecidableEq, Repr

/-- The three per-cell writes of `Game::SaveGame`. -/
def encodeCell (c : Cell) : List SaveField :=
[SaveField.boolF c.hasMine, SaveField.stateF c.state, SaveField.intF c.adjacentMines]

/-- `Game::SaveGame`: grid side length, each cell in row-major order, then
`gameOver`, `gameWon`, `gameTime`, `remainingCells`, `remainingMines`. -/
def SaveGame (s : GameState) : List SaveField :=
SaveField.intF s.currentGridSize ::
  ((allPairs s.currentGridSize.toNat).flatMap (fun p => encodeCell (getCell s.grid p.1 p.2)) ++
   [SaveField.boolF s.gameOver, SaveField.boolF s.gameWon, SaveField.floatF s.gameTime,
    SaveField.intF s.remainingCells, SaveField.intF s.remainingMines])

/-- The read cursor over the save stream.  A `file.read` past the end sets the
stream's fail state; after that every later read is a no-op, and an unformatted
read that fails leaves its destination object unchanged. -/
structure LoadReader where
rest : List SaveField
failed : Bool
deriving DecidableEq, Repr

/-- Read an `int`; on failure the destination keeps its current value `cur`. -/
def rdInt (cur : Int) (r : LoadReader) : Int × LoadReader :=
if r.failed then (cur, r) else
  match r.rest with
  | SaveField.intF v :: t => (v, ⟨t, false⟩)
  | _ => (cur, ⟨r.rest, true⟩)

/-- Read a `bool`; on failure the destination keeps its current value. -/
def rdBool (cur : Bool) (r : LoadReader) : Bool × LoadReader :=
if r.failed then (cur, r) else
  match r.rest with
  | SaveField.boolF b :: t => (b, ⟨t, false⟩)
  | _ => (cur, ⟨r.rest, true⟩)

/-- Read a `CellState`; on failure the destination keeps its current value. -/
def rdState (cur : CellState) (r : LoadReader) : CellState × LoadReader :=
if r.failed then (cur, r) else
  match r.rest with
  | SaveField.stateF st :: t => (st, ⟨t, false⟩)
  | _ => (cur, ⟨r.rest, true⟩)

/-- Read a `float` (its raw bits); on failure the destination keeps its current value. -/
def rdFloat (cur : Nat) (r : LoadReader) : Nat × LoadReader :=
if r.failed then (cur, r) else
  match r.rest with
  | SaveField.floatF bits :: t => (bits, ⟨t, false⟩)
  | _ => (cur, ⟨r.rest, true⟩)

/-- The cell-reading body of the `Game::LoadGame` double loop: read the three
fields of `grid[row][col]` into the (value-initialized) cell. -/
def loadCellStep (acc : Grid × LoadReader) (p : Nat × Nat) : Grid × LoadReader :=
let c0 := getCell acc.1 p.1 p.2
let (hm, r1) := rdBool c0.hasMine acc.2
let (st, r2) := rdState c0.state r1
let (am, r3) := rdInt c0.adjacentMines r2
(updateGrid acc.1 p.1 p.2 (fun _ => ⟨hm, st, am⟩), r3)

/-- `Game::LoadGame`.  `none` models a file that cannot be opened
(`!file.is_open()`): the function returns `false` without touching the session.
Otherwise: read the size, set `currentGridSize`, clear and resize the grid to
value-initialized cells, read the cells, then the scalar state, and return
`true` unconditionally — the source never checks the stream state after opening.
A negative size makes `std::vector<Cell>(currentGridSize)` throw `length_error`
after the clear, caught as a `false` return with the grid already cleared.
(If the very first read fails the size variable is indeterminate in C++; the
model uses 0.  Allocation is assumed to succeed for nonnegative sizes.) -/
def LoadGame (s : GameState) : Option (List SaveField) → Bool × GameState
| none => (false, s)
| some fs =>
  let (nV, r1) := rdInt 0 ⟨fs, false⟩
  if nV < 0 then (false, { s with currentGridSize := nV, grid := [] })
  else
    let n := nV.toNat
    let (g1, r2) := (allPairs n).foldl loadCellStep (InitializeGrid n, r1)
    let (go, r3) := rdBool s.gameOver r2
    let (gw, r4) := rdBool s.gameWon r3
    let (gt, r5) := rdFloat s.gameTime r4
    let (rc, r6) := rdInt s.remainingCells r5
    let (rm, _) := rdInt s.remainingMines r6
    let s2 : GameState :=
      { s with currentGridSize := nV, grid := g1, gameOver := go, gameWon := gw,
               gameTime := gt, remainingCells := rc, remainingMines := rm }
    (true, s2)

/-- Count of mines on the board. -/
def mineCountGrid (n : Nat) (g : Grid) : Nat :=
(allPairs n).countP (fun p => (getCell g p.1 p.2).hasMine)

/-- Count of Revealed non-mine cells on the board. -/
def revealedNonMineCount (n : Nat) (g : Grid) : Nat :=
(allPairs n).countP (fun p =>
  (getCell g p.1 p.2).state == CellState.REVEALED && !(getCell g p.1 p.2).hasMine)

/-- The grid is a full `n × n` matrix, as `InitializeGrid` and `LoadGame` build it. -/
def WFGrid (n : Nat) (g : Grid) : Prop :=
g.length = n ∧ ∀ r < n, (g.getD r []).length = n

instance (n : Nat) (g : Grid) : Decidable (WFGrid n g) :=
inferInstanceAs (Decidable (_ ∧ _))

/-- Session well-formedness: a nonnegative size and a full grid. -/
def WF (s : GameState) : Prop :=
0 ≤ s.currentGridSize ∧ WFGrid s.currentGridSize.toNat s.grid

instance (s : GameState) : Decidable (WF s) :=
inferInstanceAs (Decidable (_ ∧ _))

/-- The spec's bookkeeping equation:
`remainingHiddenSafeCells = (N² − mineCount) − (count of Revealed non-mine cells)`. -/
def InvariantI (s : GameState) : Prop :=
s.remainingCells =
  ((s.currentGridSize.toNat * s.currentGridSize.toNat : Nat) : Int)
  - (CalculateMineCount s.currentGridSize.toNat : Int)
  - (revealedNonMineCount s.currentGridSize.toNat s.grid : Int)

instance (s : GameState) : Decidable (InvariantI s) :=
inferInstanceAs (Decidable (_ = _))

/-- The spec's `remainingHiddenSafeCells = 0` implies `outcome = Won`. -/
def WinClause (s : GameState) : Prop := s.remainingCells = 0 → s.gameWon = true

instance (s : GameState) : Decidable (WinClause s) :=
inferInstanceAs (Decidable (_ → _))

/-- The full bookkeeping invariant of the claim. -/
def InvariantJ (s : GameState) : Prop := InvariantI s ∧ WinClause s

instance (s : GameState) : Decidable (InvariantJ s) :=
inferInstanceAs (Decidable (_ ∧ _))

/-- Adjacency data is consistent with the mine layout: a non-mine cell whose
stored `adjacentMines` is `0` has no mined neighbour.  `CalculateAdjacentMines`
establishes this; the flood-fill cascade relies on it. -/
def AdjOK (s : GameState) : Prop :=
∀ p ∈ allPairs s.currentGridSize.toNat,
  (getCell s.grid p.1 p.2).hasMine = false →
  (getCell s.grid p.1 p.2).adjacentMines = 0 →
  ∀ d ∈ offsets9, IsValidCell s ((p.1 : Int) + d.1) ((p.2 : Int) + d.2) = true →
    (cellAt s ((p.1 : Int) + d.1) ((p.2 : Int) + d.2)).hasMine = false

instance (s : GameState) : Decidable (AdjOK s) :=
inferInstanceAs (Decidable (∀ p ∈ _, _))

/-- The four corner cells hold no mine. -/
def cornersClear (n : Nat) (g : Grid) : Prop :=
(getCell g 0 0).hasMine = false ∧ (getCell g 0 (n - 1)).hasMine = false ∧
(getCell g (n - 1) 0).hasMine = false ∧ (getCell g (n - 1) (n - 1)).hasMine = false

instance (n : Nat) (g : Grid) : Decidable (cornersClear n g) :=
inferInstanceAs (Decidable (_ ∧ _))

/-- Two grids with identical mine and adjacency data everywhere. -/
def MinesEq (g g' : Grid) : Prop :=
∀ r c : Nat, (getCell g' r c).hasMine = (getCell g r c).hasMine ∧
  (getCell g' r c).adjacentMines = (getCell g r c).adjacentMines

/-! ### Concrete example sessions (used by witnesses and counterexamples) -/

/-- A 3×3 grid with a single mine at (1,1) and computed adjacency counts. -/
def exGrid3 : Grid :=
CalculateAdjacentMines 3 ((PlaceMines 3 [(1, 1)] (InitializeGrid 3)).getD (InitializeGrid 3))

/-- The fresh 3×3 session `Randomize` produces for that layout:
all cells Hidden, `remainingCells = 9 - 1 = 8`. -/
def exState3 : GameState :=
  { currentGridSize := 3, grid := exGrid3, gameOver := false, gameWon := false,
    waitingForNextLevel := false, waitingForGameOver := false, gameTime := 0,
    remainingCells := 8, remainingMines := 1 }

/-- `exState3` after revealing the safe corner (0,0). -/
def exRevealed3 : GameState := RevealCell exState3 0 0

/-- A mixed-state session: corner revealed, (2,2) flagged. -/
def exMix3 : GameState := ToggleFlag exRevealed3 2 2

/-- A misflagged session: corner revealed (it shows `adjacentMines = 1`),
and the safe cell (0,1) flagged instead of the mine. -/
def exMisflag3 : GameState := ToggleFlag exRevealed3 0 1

/-! ### Basic grid lemmas -/

theorem length_updateGrid (g : Grid) (r c : Nat) (f : Cell → Cell) :
    (updateGrid g r c f).length = g.length := by
  simp [updateGrid]

theorem getRow_updateGrid (g : Grid) (r c : Nat) (f : Cell → Cell) (r' : Nat) :
    (updateGrid g r c f).getD r' [] =
      if r = r' ∧ r < g.length then (g.getD r []).set c (f (getCell g r c))
      else g.getD r' [] := by
  unfold updateGrid
  by_cases h : r = r'
  · subst h
    by_cases hl : r < g.length
    · rw [if_pos ⟨rfl, hl⟩, List.getD_eq_getElem?_getD, List.getElem?_set_self hl,
        Option.getD_some]
    · rw [if_neg (fun hc => hl hc.2), List.set_eq_of_length_le (Nat.le_of_not_lt hl)]
  · rw [if_neg (fun hc => h hc.1), List.getD_eq_getElem?_getD, List.getElem?_set_ne h,
      ← List.getD_eq_getElem?_getD]

theorem getCell_updateGrid (g : Grid) (r c : Nat) (f : Cell → Cell) (r' c' : Nat) :
    getCell (updateGrid g r c f) r' c' =
      if r = r' ∧ c = c' ∧ r < g.length ∧ c < (g.getD r []).length
      then f (getCell g r c) else getCell g r' c' := by
  unfold getCell
  rw [getRow_updateGrid]
  by_cases hr : r = r'
  · subst hr
    by_cases hl : r < g.length
    · rw [if_pos ⟨rfl, hl⟩]
      by_cases hc : c = c'
      · subst hc
        by_cases hcl : c < (g.getD r []).length
        · rw [List.getD_eq_getElem?_getD, List.getElem?_set_self hcl, Option.getD_some,
            if_pos ⟨rfl, rfl, hl, hcl⟩]
          rfl
        · rw [List.set_eq_of_length_le (Nat.le_of_not_lt hcl), if_neg (by tauto)]
      · rw [List.getD_eq_getElem?_getD, List.getElem?_set_ne hc, ← List.getD_eq_getElem?_getD,
          if_neg (by tauto)]
    · rw [if_neg (by tauto), if_neg (by tauto)]
  · rw [if_neg (by tauto), if_neg (by tauto)]

theorem getCell_updateGrid_self (g : Grid) (r c : Nat) (f : Cell → Cell)
    (hr : r < g.length) (hc : c < (g.getD r []).length) :
    getCell (updateGrid g r c f) r c = f (getCell g r c) := by
  rw [getCell_updateGrid, if_pos ⟨rfl, rfl, hr, hc⟩]

theorem getCell_updateGrid_ne (g : Grid) (r c : Nat) (f : Cell → Cell) (r' c' : Nat)
    (h : ¬(r = r' ∧ c = c')) :
    getCell (updateGrid g r c f) r' c' = getCell g r' c' := by
  rw [getCell_updateGrid]
  by_cases hr : r = r' <;> by_cases hc : c = c' <;> simp_all

theorem WFGrid.updateGrid {n : Nat} {g : Grid} (h : WFGrid n g) (r c : Nat) (f : Cell → Cell) :
    WFGrid n (Minesweeper.updateGrid g r c f) := by
  obtain ⟨h1, h2⟩ := h
  refine ⟨by rw [length_updateGrid, h1], fun r' hr' => ?_⟩
  rw [getRow_updateGrid]
  split
  · next hcond =>
      rw [List.length_set, hcond.1]
      exact h2 r' hr'
  · exact h2 r' hr'

theorem getCell_oob_row {n : Nat} {g : Grid} (h : WFGrid n g) {r : Nat} (hr : n ≤ r) (c : Nat) :
    getCell g r c = defaultCell := by
  have hrow : g.getD r [] = [] := by
    rw [List.getD_eq_getElem?_getD, List.getElem?_eq_none (by rw [h.1]; exact hr)]
    rfl
  unfold getCell
  rw [hrow]
  simp

theorem getCell_oob_col {n : Nat} {g : Grid} (h : WFGrid n g) {r c : Nat} (hc : n ≤ c) :
    getCell g r c = defaultCell := by
  by_cases hr : r < n
  · unfold getCell
    rw [List.getD_eq_getElem?_getD (g.getD r []) c,
      List.getElem?_eq_none (by rw [h.2 r hr]; exact hc)]
    rfl
  · exact getCell_oob_row h (Nat.le_of_not_lt hr) c

theorem getCell_InitializeGrid (n r c : Nat) : getCell (InitializeGrid n) r c = defaultCell := by
  have hrow : (InitializeGrid n).getD r [] =
      if r < n then List.replicate n defaultCell else [] := by
    unfold InitializeGrid
    rw [List.getD_eq_getElem?_getD, List.getElem?_replicate]
    by_cases hr : r < n <;> simp [hr]
  unfold getCell
  rw [hrow]
  by_cases hr : r < n
  · rw [if_pos hr, List.getD_eq_getElem?_getD, List.getElem?_replicate]
    by_cases hc : c < n <;> simp [hc]
  · rw [if_neg hr]
    simp

theorem WFGrid_InitializeGrid (n : Nat) : WFGrid n (InitializeGrid n) := by
  refine ⟨by simp [InitializeGrid], fun r hr => ?_⟩
  unfold InitializeGrid
  rw [List.getD_eq_getElem?_getD, List.getElem?_replicate]
  simp [hr]

/-! ### `allPairs` and counting lemmas -/

theorem mem_allPairs {n : Nat} {p : Nat × Nat} : p ∈ allPairs n ↔ p.1 < n ∧ p.2 < n := by
  obtain ⟨a, b⟩ := p
  rw [allPairs, List.mem_product]
  simp [List.mem_range]

theorem nodup_allPairs (n : Nat) : (allPairs n).Nodup :=
  List.Nodup.product (List.nodup_range n) (List.nodup_range n)

theorem countP_ext {α : Type _} (l : List α) (p q : α → Bool) (h : ∀ a ∈ l, p a = q a) :
    l.countP p = l.countP q := by
  induction l with
  | nil => rfl
  | cons a l ih =>
    rw [List.countP_cons, List.countP_cons, h a (by simp), ih (fun b hb => h b (by simp [hb]))]

theorem countP_flip_one {α : Type _} (l : List α) (p q : α → Bool) (x : α)
    (hnd : l.Nodup) (hx : x ∈ l) (hp : p x = false) (hq : q x = true)
    (hagree : ∀ a ∈ l, a ≠ x → q a = p a) :
    l.countP q = l.countP p + 1 := by
  induction l with
  | nil => cases hx
  | cons a l ih =>
    rw [List.countP_cons, List.countP_cons]
    by_cases hax : a = x
    · subst hax
      have hxl : a ∉ l := (List.nodup_cons.mp hnd).1
      have heq : l.countP q = l.countP p :=
        countP_ext l q p (fun b hb => hagree b (List.mem_cons_of_mem _ hb)
          (fun hba => hxl (hba ▸ hb)))
      rw [heq, hq, hp]
      simp
    · have hx' : x ∈ l := by
        rcases List.mem_cons.mp hx with h | h
        · exact absurd h.symm hax
        · exact h
      rw [hagree a (List.mem_cons_self _ _) hax,
        ih (List.nodup_cons.mp hnd).2 hx' (fun b hb hbx => hagree b (List.mem_cons_of_mem _ hb) hbx)]
      omega

/-! ### Cell-level facts -/

theorem getCell_oob (g : Grid) (r c : Nat)
    (h : g.length ≤ r ∨ (g.getD r []).length ≤ c) : getCell g r c = defaultCell := by
  rcases h with h | h
  · have hrow : g.getD r [] = [] := by
      rw [List.getD_eq_getElem?_getD, List.getElem?_eq_none h]
      rfl
    unfold getCell
    rw [hrow]
    simp
  · unfold getCell
    rw [List.getD_eq_getElem?_getD (g.getD r []) c, List.getElem?_eq_none h]
    rfl

theorem hasMine_bounds {g : Grid} {r c : Nat} (h : (getCell g r c).hasMine = true) :
    r < g.length ∧ c < (g.getD r []).length := by
  by_contra hcon
  have : getCell g r c = defaultCell := by
    apply getCell_oob
    omega
  rw [this] at h
  cases h

theorem getCell_setCellState_hasMine (g : Grid) (a b : Nat) (st : CellState) (r c : Nat) :
    (getCell (setCellState g a b st) r c).hasMine = (getCell g r c).hasMine := by
  unfold setCellState
  rw [getCell_updateGrid]
  split
  · next h => rw [h.1, h.2.1]
  · rfl

theorem getCell_setCellState_adj (g : Grid) (a b : Nat) (st : CellState) (r c : Nat) :
    (getCell (setCellState g a b st) r c).adjacentMines = (getCell g r c).adjacentMines := by
  unfold setCellState
  rw [getCell_updateGrid]
  split
  · next h => rw [h.1, h.2.1]
  · rfl

theorem getCell_setCellState_self (g : Grid) (a b : Nat) (st : CellState)
    (ha : a < g.length) (hb : b < (g.getD a []).length) :
    getCell (setCellState g a b st) a b = { getCell g a b with state := st } :=
  getCell_updateGrid_self g a b _ ha hb

theorem getCell_setCellState_ne (g : Grid) (a b : Nat) (st : CellState) (r c : Nat)
    (h : ¬(a = r ∧ b = c)) :
    getCell (setCellState g a b st) r c = getCell g r c :=
  getCell_updateGrid_ne g a b _ r c h

theorem cellAtG_eq_getCell {row col : Int} (g : Grid) (hr : 0 ≤ row) (hc : 0 ≤ col) :
    cellAtG g row col = getCell g row.toNat col.toNat := by
  unfold cellAtG
  rw [if_pos ⟨hr, hc⟩]

/-! ### C8 and C9: input validation no-ops -/

/-- C8: revealing an out-of-bounds coordinate, or a cell that is not Hidden,
leaves the session entirely unchanged (`Game::RevealCell` lines 1207-1209),
and no error is signalled. -/
theorem c8_reveal_invalid_noop (s : GameState) (row col : Int)
    (h : IsValidCell s row col = false ∨ (cellAt s row col).state ≠ CellState.HIDDEN) :
    RevealCell s row col = s := by
  have h' : ¬(IsValidCell s row col && (cellAt s row col).state == CellState.HIDDEN) = true := by
    simp only [Bool.and_eq_true, beq_iff_eq]
    rintro ⟨h1, h2⟩
    rcases h with h3 | h3
    · rw [h3] at h1
      cases h1
    · exact h3 h2
  unfold RevealCell revealCellFuel
  rw [if_neg h']

/-- Witness for C8: revealing the out-of-bounds coordinate (5,5), and revealing
the already-revealed corner, are both no-ops on a concrete session. -/
theorem c8_reveal_invalid_noop_witness :
    RevealCell exState3 5 5 = exState3 ∧ RevealCell exRevealed3 0 0 = exRevealed3 :=
  ⟨c8_reveal_invalid_noop exState3 5 5 (Or.inl (by decide)),
   c8_reveal_invalid_noop exRevealed3 0 0 (Or.inr (by decide))⟩

/-- C9: a chord-reveal is dispatched (`Game::Update` lines 216-224, 238-242)
only onto a Revealed cell with a positive `adjacentMines`; for every other
target the session is unchanged. -/
theorem c9_chord_noop (s : GameState) (row col : Int)
    (h : (cellAt s row col).state ≠ CellState.REVEALED ∨
      ¬(0 < (cellAt s row col).adjacentMines)) :
    ChordReveal s row col = s := by
  unfold ChordReveal
  rw [if_neg]
  simp only [Bool.and_eq_true, beq_iff_eq, decide_eq_true_eq]
  rintro ⟨⟨hv, h1⟩, h2⟩
  rcases h with h3 | h3
  · exact h3 h1
  · exact h3 h2

/-- Witness for C9: chording a Hidden cell, an out-of-bounds coordinate, and a
mine-adjacent Hidden cell are all no-ops on concrete sessions. -/
theorem c9_chord_noop_witness :
    ChordReveal exState3 1 1 = exState3 ∧ ChordReveal exRevealed3 (-1) 2 = exRevealed3 :=
  ⟨c9_chord_noop exState3 1 1 (Or.inl (by decide)),
   c9_chord_noop exRevealed3 (-1) 2 (Or.inl (by decide))⟩

/-! ### The mine-revealing folds -/

theorem getCell_revealMineStep_foldl (ps : List (Nat × Nat)) (g : Grid) (r c : Nat) :
    getCell (ps.foldl revealMineStep g) r c =
      if (r, c) ∈ ps ∧ (getCell g r c).hasMine = true
      then { getCell g r c with state := CellState.REVEALED } else getCell g r c := by
  induction ps generalizing g with
  | nil => simp
  | cons p ps ih =>
    rw [List.foldl_cons, ih]
    by_cases hp : p = (r, c)
    · subst hp
      by_cases hm : (getCell g r c).hasMine = true
      · have hb := hasMine_bounds hm
        have hg1 : getCell (revealMineStep g (r, c)) r c =
            { getCell g r c with state := CellState.REVEALED } := by
          unfold revealMineStep
          rw [if_pos hm]
          exact getCell_setCellState_self g r c _ hb.1 hb.2
        rw [hg1]
        by_cases hmem : (r, c) ∈ ps <;> simp [hmem, hm]
      · have hg1 : revealMineStep g (r, c) = g := by
          unfold revealMineStep
          rw [if_neg hm]
        rw [hg1]
        simp [hm]
    · have hne : ¬((r, c).1 = r ∧ (r, c).2 = c) → False := fun h => h ⟨rfl, rfl⟩
      have hg1 : getCell (revealMineStep g p) r c = getCell g r c := by
        unfold revealMineStep
        split
        · exact getCell_setCellState_ne g p.1 p.2 _ r c
            (fun h => hp (by cases p; simp at h; simp [h.1, h.2]))
        · rfl
      rw [hg1]
      by_cases hmm : (r, c) ∈ ps ∧ (getCell g r c).hasMine = true
      · rw [if_pos hmm, if_pos ⟨List.mem_cons_of_mem _ hmm.1, hmm.2⟩]
      · rw [if_neg hmm, if_neg (fun hcc => hmm
          ⟨(List.mem_cons.mp hcc.1).resolve_left (fun he => hp he.symm), hcc.2⟩)]

theorem getCell_revealAllMinesGrid (n : Nat) (g : Grid) (r c : Nat) :
    getCell (revealAllMinesGrid n g) r c =
      if r < n ∧ c < n ∧ (getCell g r c).hasMine = true
      then { getCell g r c with state := CellState.REVEALED } else getCell g r c := by
  unfold revealAllMinesGrid
  rw [getCell_revealMineStep_foldl]
  have : ((r, c) ∈ allPairs n ∧ (getCell g r c).hasMine = true) ↔
      (r < n ∧ c < n ∧ (getCell g r c).hasMine = true) := by
    rw [mem_allPairs]
    tauto
  by_cases h : (r, c) ∈ allPairs n ∧ (getCell g r c).hasMine = true
  · rw [if_pos h, if_pos (this.mp h)]
  · rw [if_neg h, if_neg (fun hc => h (this.mpr hc))]

/-- C10: `Game::RevealAllMines` touches only mined cells: every scalar field of
the session is untouched, every non-mine cell (Flagged ones included) is
bit-for-bit unchanged, and even on mined cells only `state` changes. -/
theorem c10_revealAllMines_frame (s : GameState) :
    (RevealAllMines s).gameOver = s.gameOver ∧
    (RevealAllMines s).gameWon = s.gameWon ∧
    (RevealAllMines s).waitingForNextLevel = s.waitingForNextLevel ∧
    (RevealAllMines s).waitingForGameOver = s.waitingForGameOver ∧
    (RevealAllMines s).gameTime = s.gameTime ∧
    (RevealAllMines s).remainingCells = s.remainingCells ∧
    (RevealAllMines s).remainingMines = s.remainingMines ∧
    (RevealAllMines s).currentGridSize = s.currentGridSize ∧
    (∀ r c : Nat, (getCell s.grid r c).hasMine = false →
      getCell (RevealAllMines s).grid r c = getCell s.grid r c) ∧
    (∀ r c : Nat,
      (getCell (RevealAllMines s).grid r c).hasMine = (getCell s.grid r c).hasMine ∧
      (getCell (RevealAllMines s).grid r c).adjacentMines = (getCell s.grid r c).adjacentMines) := by
  refine ⟨rfl, rfl, rfl, rfl, rfl, rfl, rfl, rfl, ?_, ?_⟩
  · intro r c hnm
    show getCell (revealAllMinesGrid s.currentGridSize.toNat s.grid) r c = getCell s.grid r c
    rw [getCell_revealAllMinesGrid]
    rw [if_neg (fun h => by rw [hnm] at h; cases h.2.2)]
  · intro r c
    show (getCell (revealAllMinesGrid s.currentGridSize.toNat s.grid) r c).hasMine = _ ∧
      (getCell (revealAllMinesGrid s.currentGridSize.toNat s.grid) r c).adjacentMines = _
    rw [getCell_revealAllMinesGrid]
    split <;> exact ⟨rfl, rfl⟩

/-- Witness for C10 at a concrete session: counters untouched and the safe
corner cell unchanged. -/
theorem c10_revealAllMines_frame_witness :
    (RevealAllMines exState3).remainingCells = exState3.remainingCells ∧
    getCell (RevealAllMines exState3).grid 0 0 = getCell exState3.grid 0 0 := by
  obtain ⟨h1, h2, h3, h4, h5, h6, h7, h8, h9, h10⟩ := c10_revealAllMines_frame exState3
  exact ⟨h6, h9 0 0 (by decide)⟩

/-! ### C4: revealing a mine -/

/-- C4: in a well-formed in-progress session, revealing a valid Hidden mined
cell sets the loss outcome (`gameOver = true`, `gameWon = false`) and leaves
every mined cell of the grid Revealed, whatever those cells' prior states
(`Game::RevealCell` lines 1214-1224 and `Game::RevealAllMines`). -/
theorem c4_reveal_mine_loses (s : GameState) (row col : Int)
    (hWF : WF s)
    (hv : IsValidCell s row col = true)
    (hh : (cellAt s row col).state = CellState.HIDDEN)
    (hm : (cellAt s row col).hasMine = true)
    (hip : s.gameOver = false) (hwon : s.gameWon = false) :
    (RevealCell s row col).gameOver = true ∧
    (RevealCell s row col).gameWon = false ∧
    ∀ r c : Nat, (getCell s.grid r c).hasMine = true →
      (getCell (RevealCell s row col).grid r c).state = CellState.REVEALED := by
  have hnn : 0 ≤ row ∧ row < s.currentGridSize ∧ 0 ≤ col ∧ col < s.currentGridSize :=
    of_decide_eq_true hv
  have hgr : (revealStep s row col).grid =
      setCellState s.grid row.toNat col.toNat CellState.REVEALED := rfl
  have hm0 : (getCell s.grid row.toNat col.toNat).hasMine = true := by
    unfold cellAt at hm
    rw [cellAtG_eq_getCell s.grid hnn.1 hnn.2.2.1] at hm
    exact hm
  have hm' : (cellAt (revealStep s row col) row col).hasMine = true := by
    unfold cellAt
    rw [hgr, cellAtG_eq_getCell _ hnn.1 hnn.2.2.1, getCell_setCellState_hasMine]
    exact hm0
  have key : RevealCell s row col =
      { revealStep s row col with
          gameOver := true, gameWon := false, waitingForGameOver := true,
          grid := revealAllMinesGrid (revealStep s row col).currentGridSize.toNat
                    (revealStep s row col).grid } := by
    unfold RevealCell revealCellFuel
    rw [if_pos (by simp only [Bool.and_eq_true, beq_iff_eq]; exact ⟨hv, hh⟩), if_pos hm']
  refine ⟨by rw [key], by rw [key], ?_⟩
  intro r c hmc
  rw [key]
  show (getCell (revealAllMinesGrid (revealStep s row col).currentGridSize.toNat
      (revealStep s row col).grid) r c).state = CellState.REVEALED
  have hb := hasMine_bounds hmc
  have hrn : r < s.currentGridSize.toNat := by rw [← hWF.2.1]; exact hb.1
  have hcn : c < s.currentGridSize.toNat := by rw [← hWF.2.2 r hrn]; exact hb.2
  have hsz : (revealStep s row col).currentGridSize = s.currentGridSize := rfl
  rw [hsz, hgr, getCell_revealAllMinesGrid,
    if_pos ⟨hrn, hcn, by rw [getCell_setCellState_hasMine]; exact hmc⟩]

/-- Witness for C4: revealing the mine at (1,1) of the concrete session loses
and reveals that mine. -/
theorem c4_reveal_mine_loses_witness :
    (RevealCell exState3 1 1).gameOver = true ∧
    (getCell (RevealCell exState3 1 1).grid 1 1).state = CellState.REVEALED := by
  obtain ⟨h1, h2, h3⟩ := c4_reveal_mine_loses exState3 1 1 (by decide) (by decide)
    (by decide) (by decide) (by decide) (by decide)
  exact ⟨h1, h3 1 1 (by decide)⟩

/-! ### C5: the fatal mis-chord -/

theorem isValidRC_iff {n row col : Int} :
    isValidRC n row col = true ↔ (0 ≤ row ∧ row < n ∧ 0 ≤ col ∧ col < n) := by
  unfold isValidRC
  exact decide_eq_true_iff

theorem cellAtG_setCellState_hasMine (g : Grid) (a b : Nat) (st : CellState) (x y : Int) :
    (cellAtG (setCellState g a b st) x y).hasMine = (cellAtG g x y).hasMine := by
  unfold cellAtG
  split
  · exact getCell_setCellState_hasMine g a b st x.toNat y.toNat
  · rfl

theorem getCell_revealNbr_foldl (n row col : Int) (ds : List (Int × Int)) (g : Grid)
    (r c : Nat) :
    getCell (ds.foldl (fun g d =>
      if isValidRC n (row + d.1) (col + d.2) && (cellAtG g (row + d.1) (col + d.2)).hasMine then
        setCellState g (row + d.1).toNat (col + d.2).toNat CellState.REVEALED
      else g) g) r c =
      if ∃ d ∈ ds, (row + d.1).toNat = r ∧ (col + d.2).toNat = c ∧
          isValidRC n (row + d.1) (col + d.2) = true ∧
          (cellAtG g (row + d.1) (col + d.2)).hasMine = true
      then { getCell g r c with state := CellState.REVEALED } else getCell g r c := by
  induction ds generalizing g with
  | nil => simp
  | cons d0 ds ih =>
    rw [List.foldl_cons, ih]
    by_cases hc0 : (isValidRC n (row + d0.1) (col + d0.2) &&
        (cellAtG g (row + d0.1) (col + d0.2)).hasMine) = true
    · rw [if_pos hc0]
      rw [Bool.and_eq_true] at hc0
      have hnn : 0 ≤ row + d0.1 ∧ 0 ≤ col + d0.2 := by
        have := isValidRC_iff.mp hc0.1
        exact ⟨this.1, this.2.2.1⟩
      have hmg : (getCell g (row + d0.1).toNat (col + d0.2).toNat).hasMine = true := by
        rw [← cellAtG_eq_getCell g hnn.1 hnn.2]
        exact hc0.2
      have hb := hasMine_bounds hmg
      have hsame : ∀ x y : Int,
          (cellAtG (setCellState g (row + d0.1).toNat (col + d0.2).toNat CellState.REVEALED) x y).hasMine
          = (cellAtG g x y).hasMine := fun x y => cellAtG_setCellState_hasMine g _ _ _ x y
      have hcond : (∃ d ∈ ds, (row + d.1).toNat = r ∧ (col + d.2).toNat = c ∧
            isValidRC n (row + d.1) (col + d.2) = true ∧
            (cellAtG (setCellState g (row + d0.1).toNat (col + d0.2).toNat CellState.REVEALED)
              (row + d.1) (col + d.2)).hasMine = true) ↔
          (∃ d ∈ ds, (row + d.1).toNat = r ∧ (col + d.2).toNat = c ∧
            isValidRC n (row + d.1) (col + d.2) = true ∧
            (cellAtG g (row + d.1) (col + d.2)).hasMine = true) := by
        constructor
        · rintro ⟨d, hd, h1, h2, h3, h4⟩
          exact ⟨d, hd, h1, h2, h3, by rw [← hsame]; exact h4⟩
        · rintro ⟨d, hd, h1, h2, h3, h4⟩
          exact ⟨d, hd, h1, h2, h3, by rw [hsame]; exact h4⟩
      by_cases htgt : (row + d0.1).toNat = r ∧ (col + d0.2).toNat = c
      · have hg1 : getCell (setCellState g (row + d0.1).toNat (col + d0.2).toNat
            CellState.REVEALED) r c = { getCell g r c with state := CellState.REVEALED } := by
          rw [← htgt.1, ← htgt.2]
          exact getCell_setCellState_self g _ _ _ hb.1 hb.2
        by_cases hex : ∃ d ∈ ds, (row + d.1).toNat = r ∧ (col + d.2).toNat = c ∧
            isValidRC n (row + d.1) (col + d.2) = true ∧
            (cellAtG g (row + d.1) (col + d.2)).hasMine = true
        · rw [if_pos (hcond.mpr hex), hg1,
            if_pos ⟨d0, List.mem_cons_self _ _, htgt.1, htgt.2, hc0.1, hc0.2⟩]
        · rw [if_neg (fun h => hex (hcond.mp h)), hg1,
            if_pos ⟨d0, List.mem_cons_self _ _, htgt.1, htgt.2, hc0.1, hc0.2⟩]
      · have hg1 : getCell (setCellState g (row + d0.1).toNat (col + d0.2).toNat
            CellState.REVEALED) r c = getCell g r c :=
          getCell_setCellState_ne g _ _ _ r c htgt
        rw [hg1]
        by_cases hex : ∃ d ∈ ds, (row + d.1).toNat = r ∧ (col + d.2).toNat = c ∧
            isValidRC n (row + d.1) (col + d.2) = true ∧
            (cellAtG g (row + d.1) (col + d.2)).hasMine = true
        · obtain ⟨d, hd, h1, h2, h3, h4⟩ := hex
          rw [if_pos (hcond.mpr ⟨d, hd, h1, h2, h3, h4⟩),
            if_pos ⟨d, List.mem_cons_of_mem _ hd, h1, h2, h3, h4⟩]
        · rw [if_neg (fun h => hex (hcond.mp h)), if_neg]
          rintro ⟨d, hd, h1, h2, h3, h4⟩
          rcases List.mem_cons.mp hd with rfl | hd'
          · exact htgt ⟨h1, h2⟩
          · exact hex ⟨d, hd', h1, h2, h3, h4⟩
    · rw [if_neg hc0]
      by_cases hex : ∃ d ∈ ds, (row + d.1).toNat = r ∧ (col + d.2).toNat = c ∧
          isValidRC n (row + d.1) (col + d.2) = true ∧
          (cellAtG g (row + d.1) (col + d.2)).hasMine = true
      · obtain ⟨d, hd, h1, h2, h3, h4⟩ := hex
        rw [if_pos ⟨d, hd, h1, h2, h3, h4⟩,
          if_pos ⟨d, List.mem_cons_of_mem _ hd, h1, h2, h3, h4⟩]
      · rw [if_neg hex, if_neg]
        rintro ⟨d, hd, h1, h2, h3, h4⟩
        rcases List.mem_cons.mp hd with rfl | hd'
        · exact hc0 (by rw [h3, h4]; rfl)
        · exact hex ⟨d, hd', h1, h2, h3, h4⟩

/-- C5: a chord on a cell whose flagged-neighbour count matches its
`adjacentMines` but with a misflagged (non-mine) flagged neighbour takes the
fatal-chord branch of `Game::RevealAdjacentCells` (lines 1473-1479): the
outcome becomes Lost, the counters and size are untouched, every valid mined
8-neighbour of the chorded cell becomes Revealed with its other fields intact,
and every cell that is not a mined 8-neighbour of the chorded cell — in
particular every cell outside the 8-neighbourhood — keeps its state. -/
theorem c5_mischord_scoped_loss (s : GameState) (row col : Int)
    (hflags : (flaggedNeighborCount s row col : Int) = (cellAt s row col).adjacentMines)
    (hmis : chordMistake s row col = true)
    (hover : s.gameOver = false) (hwon : s.gameWon = false) :
    (RevealAdjacentCells s row col).gameOver = true ∧
    (RevealAdjacentCells s row col).gameWon = false ∧
    (RevealAdjacentCells s row col).remainingCells = s.remainingCells ∧
    (RevealAdjacentCells s row col).currentGridSize = s.currentGridSize ∧
    (RevealAdjacentCells s row col).gameTime = s.gameTime ∧
    (RevealAdjacentCells s row col).remainingMines = s.remainingMines ∧
    (∀ d ∈ offsets8, IsValidCell s (row + d.1) (col + d.2) = true →
      (cellAt s (row + d.1) (col + d.2)).hasMine = true →
      cellAt (RevealAdjacentCells s row col) (row + d.1) (col + d.2) =
        { cellAt s (row + d.1) (col + d.2) with state := CellState.REVEALED }) ∧
    (∀ r c : Nat,
      ((getCell s.grid r c).hasMine = false ∨
        ∀ d ∈ offsets8, ¬((r : Int) = row + d.1 ∧ (c : Int) = col + d.2)) →
      getCell (RevealAdjacentCells s row col).grid r c = getCell s.grid r c) := by
  have key : RevealAdjacentCells s row col =
      { s with grid := RevealNeighboringMines s.currentGridSize s.grid row col,
               gameOver := true, waitingForGameOver := true } := by
    unfold RevealAdjacentCells
    rw [if_pos hflags, if_pos hmis]
  rw [key]
  refine ⟨rfl, hwon, rfl, rfl, rfl, rfl, ?_, ?_⟩
  · intro d hd hvld hmn
    have hv' : 0 ≤ row + d.1 ∧ row + d.1 < s.currentGridSize ∧
        0 ≤ col + d.2 ∧ col + d.2 < s.currentGridSize := isValidRC_iff.mp hvld
    show cellAtG (RevealNeighboringMines s.currentGridSize s.grid row col)
        (row + d.1) (col + d.2) = _
    rw [cellAtG_eq_getCell _ hv'.1 hv'.2.2.1]
    unfold RevealNeighboringMines
    rw [getCell_revealNbr_foldl, if_pos ⟨d, hd, rfl, rfl, hvld, by
      rw [cellAtG_eq_getCell _ hv'.1 hv'.2.2.1]
      unfold cellAt at hmn
      rw [cellAtG_eq_getCell _ hv'.1 hv'.2.2.1] at hmn
      exact hmn⟩]
    unfold cellAt
    rw [cellAtG_eq_getCell _ hv'.1 hv'.2.2.1]
  · intro r c hside
    show getCell (RevealNeighboringMines s.currentGridSize s.grid row col) r c = _
    unfold RevealNeighboringMines
    rw [getCell_revealNbr_foldl, if_neg]
    rintro ⟨d, hd, h1, h2, h3, h4⟩
    have hv' : 0 ≤ row + d.1 ∧ row + d.1 < s.currentGridSize ∧
        0 ≤ col + d.2 ∧ col + d.2 < s.currentGridSize := isValidRC_iff.mp h3
    have hr : (r : Int) = row + d.1 := by
      rw [← h1, Int.toNat_of_nonneg hv'.1]
    have hc : (c : Int) = col + d.2 := by
      rw [← h2, Int.toNat_of_nonneg hv'.2.2.1]
    rcases hside with hnm | hnd
    · rw [cellAtG_eq_getCell _ hv'.1 hv'.2.2.1, h1, h2, hnm] at h4
      cases h4
    · exact hnd d hd ⟨hr, hc⟩

/-- Witness for C5: on the concrete misflagged session, chording the corner
loses, reveals the mine at (1,1), and leaves the far cell (2,0) unchanged. -/
theorem c5_mischord_scoped_loss_witness :
    (RevealAdjacentCells exMisflag3 0 0).gameOver = true ∧
    (cellAt (RevealAdjacentCells exMisflag3 0 0) 1 1).state = CellState.REVEALED ∧
    getCell (RevealAdjacentCells exMisflag3 0 0).grid 2 0 = getCell exMisflag3.grid 2 0 := by
  obtain ⟨h1, h2, h3, h4, h5, h6, h7, h8⟩ := c5_mischord_scoped_loss exMisflag3 0 0
    (by decide) (by decide) (by decide) (by decide)
  refine ⟨h1, ?_, h8 2 0 (Or.inl (by decide))⟩
  have h := h7 (1, 1) (by decide) (by decide) (by decide)
  norm_num at h
  rw [h]

/-! ### C2: mine placement -/

theorem isCornerCell_eq_false_iff {n r c : Int} :
    isCornerCell n r c = false ↔
      ¬((r = 0 ∧ c = 0) ∨ (r = 0 ∧ c = n - 1) ∨ (r = n - 1 ∧ c = 0) ∨
        (r = n - 1 ∧ c = n - 1)) := by
  unfold isCornerCell
  rw [Bool.eq_false_iff]
  simp only [ne_eq, Bool.or_eq_true, Bool.and_eq_true, beq_iff_eq]
  tauto

theorem mineCountGrid_setMine {n : Nat} {g : Grid} (hWF : WFGrid n g) {r c : Nat}
    (hr : r < n) (hc : c < n) (hnm : (getCell g r c).hasMine = false) :
    mineCountGrid n (setMine g r c) = mineCountGrid n g + 1 := by
  unfold mineCountGrid
  refine countP_flip_one (allPairs n) _ _ (r, c) (nodup_allPairs n)
    (mem_allPairs.mpr ⟨hr, hc⟩) hnm ?_ ?_
  · show (getCell (setMine g r c) r c).hasMine = true
    unfold setMine
    rw [getCell_updateGrid_self g r c _ (by rw [hWF.1]; exact hr)
      (by rw [hWF.2 r hr]; exact hc)]
  · intro a _ ha
    show (getCell (setMine g r c) a.1 a.2).hasMine = (getCell g a.1 a.2).hasMine
    unfold setMine
    rw [getCell_updateGrid_ne g r c _ a.1 a.2
      (fun h => ha (by cases a; simp at h ⊢; exact ⟨h.1.symm, h.2.symm⟩))]

theorem placeMinesLoop_spec (n : Nat) (hn : 1 ≤ n) :
    ∀ (draws : List (Int × Int)) (need : Nat) (g g' : Grid),
    WFGrid n g →
    (∀ q ∈ draws, 0 ≤ q.1 ∧ q.1 < (n : Int) ∧ 0 ≤ q.2 ∧ q.2 < (n : Int)) →
    cornersClear n g →
    placeMinesLoop (n : Int) draws need g = some g' →
    mineCountGrid n g' = mineCountGrid n g + need ∧ cornersClear n g' ∧ WFGrid n g' := by
  intro draws
  induction draws with
  | nil =>
    intro need g g' hWF _ hcc hres
    cases need with
    | zero =>
      cases hres
      exact ⟨by omega, hcc, hWF⟩
    | succ k => cases hres
  | cons q draws ih =>
    intro need g g' hWF hdr hcc hres
    cases need with
    | zero =>
      cases hres
      exact ⟨by omega, hcc, hWF⟩
    | succ k =>
      have hq := hdr q (List.mem_cons_self _ _)
      unfold placeMinesLoop at hres
      by_cases hcond : (isCornerCell (n : Int) q.1 q.2 || (cellAtG g q.1 q.2).hasMine) = true
      · rw [if_pos hcond] at hres
        exact ih (k + 1) g g' hWF (fun a ha => hdr a (List.mem_cons_of_mem _ ha)) hcc hres
      · rw [if_neg hcond] at hres
        simp only [Bool.or_eq_true, not_or, Bool.not_eq_true] at hcond
        have hq1 : (q.1.toNat : Int) = q.1 := Int.toNat_of_nonneg hq.1
        have hq2 : (q.2.toNat : Int) = q.2 := Int.toNat_of_nonneg hq.2.2.1
        have hr : q.1.toNat < n := by omega
        have hcn : q.2.toNat < n := by omega
        have hnm : (getCell g q.1.toNat q.2.toNat).hasMine = false := by
          rw [← cellAtG_eq_getCell g hq.1 hq.2.2.1]
          exact hcond.2
        have hncor := isCornerCell_eq_false_iff.mp hcond.1
        have hWF' : WFGrid n (setMine g q.1.toNat q.2.toNat) :=
          WFGrid.updateGrid hWF _ _ _
        have hcc' : cornersClear n (setMine g q.1.toNat q.2.toNat) := by
          refine ⟨?_, ?_, ?_, ?_⟩ <;>
            · unfold setMine
              rw [getCell_updateGrid_ne g _ _ _ _ _ (fun h => hncor (by omega))]
              first
              | exact hcc.1
              | exact hcc.2.1
              | exact hcc.2.2.1
              | exact hcc.2.2.2
        obtain ⟨hcount, hccf, hWFf⟩ := ih k _ g' hWF'
          (fun a ha => hdr a (List.mem_cons_of_mem _ ha)) hcc' hres
        refine ⟨?_, hccf, hWFf⟩
        rw [hcount, mineCountGrid_setMine hWF hr hcn hnm]
        omega

/-- C2: for every grid size N in [3,20] and any in-range random draw sequence
that lets `Game::PlaceMines` finish, the resulting grid has exactly
`max(1, trunc(N² * 0.15f)) = max(1, ⌊0.15·N²⌋)` mines and no mine on any of the
four corners. -/
theorem c2_placement (n : Nat) (h3 : 3 ≤ n) (h20 : n ≤ 20)
    (draws : List (Int × Int))
    (hdr : ∀ q ∈ draws, 0 ≤ q.1 ∧ q.1 < (n : Int) ∧ 0 ≤ q.2 ∧ q.2 < (n : Int))
    (g' : Grid) (hres : PlaceMines (n : Int) draws (InitializeGrid n) = some g') :
    mineCountGrid n g' = CalculateMineCount n ∧
    CalculateMineCount n = max 1 (3 * n * n / 20) ∧
    (getCell g' 0 0).hasMine = false ∧
    (getCell g' 0 (n - 1)).hasMine = false ∧
    (getCell g' (n - 1) 0).hasMine = false ∧
    (getCell g' (n - 1) (n - 1)).hasMine = false := by
  have hcc0 : cornersClear n (InitializeGrid n) := by
    refine ⟨?_, ?_, ?_, ?_⟩ <;> rw [getCell_InitializeGrid] <;> rfl
  have hcnt0 : mineCountGrid n (InitializeGrid n) = 0 := by
    unfold mineCountGrid
    rw [List.countP_eq_zero]
    intro p _
    rw [getCell_InitializeGrid]
    simp [defaultCell]
  unfold PlaceMines at hres
  have htn : ((n : Int)).toNat = n := rfl
  rw [htn] at hres
  obtain ⟨hcount, hcc, _⟩ := placeMinesLoop_spec n (by omega) draws (CalculateMineCount n)
    (InitializeGrid n) g' (WFGrid_InitializeGrid n) hdr hcc0 hres
  have hform : CalculateMineCount n = max 1 (3 * n * n / 20) := by
    interval_cases n <;> decide
  exact ⟨by rw [hcount, hcnt0]; omega, hform, hcc.1, hcc.2.1, hcc.2.2.1, hcc.2.2.2⟩

/-- Witness for C2: a 3×3 placement from the draw stream [(1,1)] yields exactly
one mine, and the corner (0,0) stays clear. -/
theorem c2_placement_witness :
    mineCountGrid 3 ((PlaceMines 3 [(1, 1)] (InitializeGrid 3)).getD (InitializeGrid 3)) =
      CalculateMineCount 3 ∧
    (getCell ((PlaceMines 3 [(1, 1)] (InitializeGrid 3)).getD (InitializeGrid 3)) 0 0).hasMine
      = false := by
  have h := c2_placement 3 (by decide) (by decide) [(1, 1)] (by decide)
    ((PlaceMines 3 [(1, 1)] (InitializeGrid 3)).getD (InitializeGrid 3)) (by decide)
  exact ⟨h.1, h.2.2.1⟩

/-! ### C3: adjacency computation -/

theorem rowlen_updateGrid (g : Grid) (r c : Nat) (f : Cell → Cell) (r' : Nat) :
    ((updateGrid g r c f).getD r' []).length = (g.getD r' []).length := by
  rw [getRow_updateGrid]
  split
  · next hcond =>
      rw [List.length_set, hcond.1]
  · rfl

theorem getCell_calcAdjStep_hasMine (n : Int) (g : Grid) (p : Nat × Nat) (r c : Nat) :
    (getCell (calcAdjStep n g p) r c).hasMine = (getCell g r c).hasMine := by
  unfold calcAdjStep
  split
  · rfl
  · rw [getCell_updateGrid]
    split
    · next h => rw [h.1, h.2.1]
    · rfl

theorem getCell_calcAdjStep_ne (n : Int) (g : Grid) (p : Nat × Nat) (r c : Nat)
    (h : ¬(p.1 = r ∧ p.2 = c)) :
    getCell (calcAdjStep n g p) r c = getCell g r c := by
  unfold calcAdjStep
  split
  · rfl
  · exact getCell_updateGrid_ne g p.1 p.2 _ r c h

theorem cellAtG_hasMine_congr {g g' : Grid}
    (h : ∀ r c : Nat, (getCell g' r c).hasMine = (getCell g r c).hasMine) (x y : Int) :
    (cellAtG g' x y).hasMine = (cellAtG g x y).hasMine := by
  unfold cellAtG
  split
  · exact h x.toNat y.toNat
  · rfl

theorem adjMineCount_congr (n : Int) {g g' : Grid}
    (h : ∀ r c : Nat, (getCell g' r c).hasMine = (getCell g r c).hasMine) (row col : Int) :
    adjMineCount n g' row col = adjMineCount n g row col := by
  unfold adjMineCount
  refine countP_ext _ _ _ (fun d _ => ?_)
  rw [cellAtG_hasMine_congr h]

theorem calcAdj_foldl (n : Int) (ps : List (Nat × Nat)) (hnd : ps.Nodup) : ∀ (g : Grid),
    (∀ p ∈ ps, p.1 < g.length ∧ p.2 < (g.getD p.1 []).length) →
    (∀ r c : Nat, (getCell (ps.foldl (calcAdjStep n) g) r c).hasMine
      = (getCell g r c).hasMine) ∧
    (∀ p ∈ ps, (getCell g p.1 p.2).hasMine = false →
      (getCell (ps.foldl (calcAdjStep n) g) p.1 p.2).adjacentMines
        = (adjMineCount n g (p.1 : Int) (p.2 : Int) : Int)) ∧
    (∀ p : Nat × Nat, p ∉ ps →
      getCell (ps.foldl (calcAdjStep n) g) p.1 p.2 = getCell g p.1 p.2) := by
  induction ps with
  | nil => exact fun g _ => ⟨fun r c => rfl, fun p hp => absurd hp (List.not_mem_nil p), fun p _ => rfl⟩
  | cons p0 ps ih =>
    intro g hb
    have hnd' := (List.nodup_cons.mp hnd).2
    have hp0nin := (List.nodup_cons.mp hnd).1
    have hb1 : ∀ p ∈ ps, p.1 < (calcAdjStep n g p0).length ∧
        p.2 < ((calcAdjStep n g p0).getD p.1 []).length := by
      intro p hp
      have := hb p (List.mem_cons_of_mem _ hp)
      unfold calcAdjStep
      split
      · exact this
      · exact ⟨by rw [length_updateGrid]; exact this.1, by rw [rowlen_updateGrid]; exact this.2⟩
    obtain ⟨ihm, ihv, ihf⟩ := ih hnd' (calcAdjStep n g p0) hb1
    have hstepm : ∀ r c : Nat, (getCell (calcAdjStep n g p0) r c).hasMine
        = (getCell g r c).hasMine := fun r c => getCell_calcAdjStep_hasMine n g p0 r c
    refine ⟨fun r c => by rw [List.foldl_cons, ihm, hstepm], ?_, ?_⟩
    · intro p hp hnm
      rw [List.foldl_cons]
      rcases List.mem_cons.mp hp with rfl | hp'
      · have hcell : getCell (calcAdjStep n g p) p.1 p.2 =
            { getCell g p.1 p.2 with
              adjacentMines := (adjMineCount n g (p.1 : Int) (p.2 : Int) : Int) } := by
          unfold calcAdjStep
          rw [if_neg (by rw [hnm]; exact Bool.false_ne_true)]
          exact getCell_updateGrid_self g p.1 p.2 _ (hb p (List.mem_cons_self _ _)).1
            (hb p (List.mem_cons_self _ _)).2
        rw [ihf p hp0nin, hcell]
      · rw [ihv p hp' (by rw [hstepm]; exact hnm), adjMineCount_congr n hstepm]
    · intro p hp
      rw [List.foldl_cons, ihf p (fun hin => hp (List.mem_cons_of_mem _ hin)),
        getCell_calcAdjStep_ne n g p0 p.1 p.2 (fun he => hp (by
          rcases p with ⟨a, b⟩
          rcases p0 with ⟨a0, b0⟩
          simp at he
          rw [he.1, he.2]
          exact List.mem_cons_self _ _))]

theorem adjMineCount_eq_moore (n : Int) (g : Grid) (r c : Nat)
    (hnm : (getCell g r c).hasMine = false) :
    adjMineCount n g (r : Int) (c : Int) = mooreNeighborMineCount n g r c := by
  unfold adjMineCount mooreNeighborMineCount
  have expand : ∀ P : Int × Int → Bool,
      List.countP P offsets9 =
        List.countP P offsets8 + (if P ((0 : Int), (0 : Int)) then 1 else 0) := by
    intro P
    show List.countP P [(-1, -1), (-1, 0), (-1, 1), (0, -1), (0, 0), (0, 1), (1, -1), (1, 0), (1, 1)]
      = List.countP P [(-1, -1), (-1, 0), (-1, 1), (0, -1), (0, 1), (1, -1), (1, 0), (1, 1)]
        + (if P ((0 : Int), (0 : Int)) then 1 else 0)
    simp only [List.countP_cons, List.countP_nil]
    ring
  have hcenter : (isValidRC n ((r : Int) + 0) ((c : Int) + 0) &&
      (cellAtG g ((r : Int) + 0) ((c : Int) + 0)).hasMine) = false := by
    rw [add_zero, add_zero,
      cellAtG_eq_getCell g (Int.natCast_nonneg r) (Int.natCast_nonneg c),
      Int.toNat_natCast, Int.toNat_natCast, hnm, Bool.and_false]
  have hcB : (isValidRC n ((r : Int) + (((0 : Int), (0 : Int)) : Int × Int).1)
      ((c : Int) + (((0 : Int), (0 : Int)) : Int × Int).2) &&
      (cellAtG g ((r : Int) + (((0 : Int), (0 : Int)) : Int × Int).1)
        ((c : Int) + (((0 : Int), (0 : Int)) : Int × Int).2)).hasMine) = false := hcenter
  rw [expand, hcB]
  simp

/-- C3: after `Game::CalculateAdjacentMines` on a full `n × n` grid, every
non-mine cell's `adjacentMines` equals the exact number of mined cells among
its 8-connected Moore neighbours, clipped at the grid edges (the source's loop
also scans the center offset, which contributes nothing for a non-mine cell). -/
theorem c3_adjacency (n : Int) (g : Grid) (hWF : WFGrid n.toNat g) :
    ∀ r c : Nat, r < n.toNat → c < n.toNat → (getCell g r c).hasMine = false →
      (getCell (CalculateAdjacentMines n g) r c).adjacentMines
        = (mooreNeighborMineCount n g r c : Int) := by
  intro r c hr hc hnm
  have hb : ∀ p ∈ allPairs n.toNat, p.1 < g.length ∧ p.2 < (g.getD p.1 []).length := by
    intro p hp
    have hm := mem_allPairs.mp hp
    exact ⟨by rw [hWF.1]; exact hm.1, by rw [hWF.2 p.1 hm.1]; exact hm.2⟩
  obtain ⟨_, hval, _⟩ := calcAdj_foldl n (allPairs n.toNat) (nodup_allPairs _) g hb
  unfold CalculateAdjacentMines
  rw [hval (r, c) (mem_allPairs.mpr ⟨hr, hc⟩) hnm, adjMineCount_eq_moore n g r c hnm]

/-- Witness for C3 on the concrete 3×3 layout: the corner (0,0) and the edge
cell (0,1) both carry adjacency count 1 (the single mine at (1,1)). -/
theorem c3_adjacency_witness :
    (getCell (CalculateAdjacentMines 3
        ((PlaceMines 3 [(1, 1)] (InitializeGrid 3)).getD (InitializeGrid 3))) 0 0).adjacentMines
      = (mooreNeighborMineCount 3
          ((PlaceMines 3 [(1, 1)] (InitializeGrid 3)).getD (InitializeGrid 3)) 0 0 : Int) :=
  c3_adjacency 3 ((PlaceMines 3 [(1, 1)] (InitializeGrid 3)).getD (InitializeGrid 3))
    (by decide) 0 0 (by decide) (by decide) (by decide)

/-! ### C6 and C7: persistence -/

theorem loadCellStep_foldl (gs : Grid) : ∀ (ps : List (Nat × Nat)), ps.Nodup →
    ∀ (rest : List SaveField) (g : Grid),
    (∀ p ∈ ps, p.1 < g.length ∧ p.2 < (g.getD p.1 []).length) →
    (ps.foldl loadCellStep
      (g, ⟨ps.flatMap (fun p => encodeCell (getCell gs p.1 p.2)) ++ rest, false⟩)).2
      = ⟨rest, false⟩ ∧
    (∀ p ∈ ps, getCell (ps.foldl loadCellStep
      (g, ⟨ps.flatMap (fun p => encodeCell (getCell gs p.1 p.2)) ++ rest, false⟩)).1 p.1 p.2
      = getCell gs p.1 p.2) ∧
    (∀ q : Nat × Nat, q ∉ ps → getCell (ps.foldl loadCellStep
      (g, ⟨ps.flatMap (fun p => encodeCell (getCell gs p.1 p.2)) ++ rest, false⟩)).1 q.1 q.2
      = getCell g q.1 q.2) := by
  intro ps
  induction ps with
  | nil =>
    intro _ rest g _
    refine ⟨by simp, by simp, fun q _ => by simp⟩
  | cons p ps ih =>
    intro hnd rest g hb
    have hp0nin := (List.nodup_cons.mp hnd).1
    have hstep : loadCellStep
        (g, ⟨(p :: ps).flatMap (fun p => encodeCell (getCell gs p.1 p.2)) ++ rest, false⟩) p
        = (updateGrid g p.1 p.2 (fun _ => getCell gs p.1 p.2),
           ⟨ps.flatMap (fun p => encodeCell (getCell gs p.1 p.2)) ++ rest, false⟩) := rfl
    have hb1 : ∀ q ∈ ps, q.1 < (updateGrid g p.1 p.2 (fun _ => getCell gs p.1 p.2)).length ∧
        q.2 < ((updateGrid g p.1 p.2 (fun _ => getCell gs p.1 p.2)).getD q.1 []).length := by
      intro q hq
      have := hb q (List.mem_cons_of_mem _ hq)
      exact ⟨by rw [length_updateGrid]; exact this.1, by rw [rowlen_updateGrid]; exact this.2⟩
    obtain ⟨ihr, ihv, ihf⟩ := ih (List.nodup_cons.mp hnd).2 rest
      (updateGrid g p.1 p.2 (fun _ => getCell gs p.1 p.2)) hb1
    rw [List.foldl_cons, hstep]
    refine ⟨ihr, ?_, ?_⟩
    · intro p' hp'
      rcases List.mem_cons.mp hp' with rfl | hin
      · rw [ihf p' hp0nin,
          getCell_updateGrid_self g p'.1 p'.2 _ (hb p' (List.mem_cons_self _ _)).1
            (hb p' (List.mem_cons_self _ _)).2]
      · exact ihv p' hin
    · intro q hq
      rw [ihf q (fun hin => hq (List.mem_cons_of_mem _ hin)),
        getCell_updateGrid_ne g p.1 p.2 _ q.1 q.2 (fun he => hq (by
          rcases q with ⟨a, b⟩
          rcases p with ⟨a0, b0⟩
          simp at he
          rw [← he.1, ← he.2]
          exact List.mem_cons_self _ _))]

theorem rdInt_cons (cur v : Int) (l : List SaveField) :
    rdInt cur ⟨SaveField.intF v :: l, false⟩ = (v, ⟨l, false⟩) := rfl

theorem rdBool_cons (cur b : Bool) (l : List SaveField) :
    rdBool cur ⟨SaveField.boolF b :: l, false⟩ = (b, ⟨l, false⟩) := rfl

theorem rdState_cons (cur st : CellState) (l : List SaveField) :
    rdState cur ⟨SaveField.stateF st :: l, false⟩ = (st, ⟨l, false⟩) := rfl

theorem rdFloat_cons (cur bits : Nat) (l : List SaveField) :
    rdFloat cur ⟨SaveField.floatF bits :: l, false⟩ = (bits, ⟨l, false⟩) := rfl

/-- C6: loading the byte stream written by `Game::SaveGame` restores every
serialized field of the saved session — grid side length, every cell's
`hasMine`, `state` and `adjacentMines` (row-major), the `gameOver`/`gameWon`
flags, the elapsed time, the remaining-safe-cell count and the mine count —
whatever session the load is invoked on. -/
theorem c6_save_load_roundtrip (s t : GameState) (n : Nat) (hn : 3 ≤ n)
    (hsz : s.currentGridSize = (n : Int)) (hWF : WFGrid n s.grid) :
    (LoadGame t (some (SaveGame s))).1 = true ∧
    (LoadGame t (some (SaveGame s))).2.currentGridSize = s.currentGridSize ∧
    (∀ r c : Nat, r < n → c < n →
      getCell (LoadGame t (some (SaveGame s))).2.grid r c = getCell s.grid r c) ∧
    (LoadGame t (some (SaveGame s))).2.gameOver = s.gameOver ∧
    (LoadGame t (some (SaveGame s))).2.gameWon = s.gameWon ∧
    (LoadGame t (some (SaveGame s))).2.gameTime = s.gameTime ∧
    (LoadGame t (some (SaveGame s))).2.remainingCells = s.remainingCells ∧
    (LoadGame t (some (SaveGame s))).2.remainingMines = s.remainingMines := by
  have hstream : SaveGame s = SaveField.intF (n : Int) ::
      ((allPairs n).flatMap (fun p => encodeCell (getCell s.grid p.1 p.2)) ++
       [SaveField.boolF s.gameOver, SaveField.boolF s.gameWon, SaveField.floatF s.gameTime,
        SaveField.intF s.remainingCells, SaveField.intF s.remainingMines]) := by
    unfold SaveGame
    rw [hsz, Int.toNat_natCast]
  have hb : ∀ p ∈ allPairs n, p.1 < (InitializeGrid n).length ∧
      p.2 < ((InitializeGrid n).getD p.1 []).length := by
    intro p hp
    have hm := mem_allPairs.mp hp
    have hW := WFGrid_InitializeGrid n
    exact ⟨by rw [hW.1]; exact hm.1, by rw [hW.2 p.1 hm.1]; exact hm.2⟩
  obtain ⟨hrd, hval, _⟩ := loadCellStep_foldl s.grid (allPairs n) (nodup_allPairs n)
    [SaveField.boolF s.gameOver, SaveField.boolF s.gameWon, SaveField.floatF s.gameTime,
     SaveField.intF s.remainingCells, SaveField.intF s.remainingMines]
    (InitializeGrid n) hb
  have key : LoadGame t (some (SaveGame s)) =
      (true, { t with
               currentGridSize := (n : Int),
               grid := ((allPairs n).foldl loadCellStep (InitializeGrid n,
                 ⟨(allPairs n).flatMap (fun p => encodeCell (getCell s.grid p.1 p.2)) ++
                  [SaveField.boolF s.gameOver, SaveField.boolF s.gameWon,
                   SaveField.floatF s.gameTime, SaveField.intF s.remainingCells,
                   SaveField.intF s.remainingMines], false⟩)).1,
               gameOver := s.gameOver, gameWon := s.gameWon, gameTime := s.gameTime,
               remainingCells := s.remainingCells, remainingMines := s.remainingMines }) := by
    rw [hstream]
    have hsplit : List.foldl loadCellStep (InitializeGrid n,
        ⟨(allPairs n).flatMap (fun p => encodeCell (getCell s.grid p.1 p.2)) ++
         [SaveField.boolF s.gameOver, SaveField.boolF s.gameWon, SaveField.floatF s.gameTime,
          SaveField.intF s.remainingCells, SaveField.intF s.remainingMines], false⟩)
        (allPairs n)
        = ((List.foldl loadCellStep (InitializeGrid n,
            ⟨(allPairs n).flatMap (fun p => encodeCell (getCell s.grid p.1 p.2)) ++
             [SaveField.boolF s.gameOver, SaveField.boolF s.gameWon, SaveField.floatF s.gameTime,
              SaveField.intF s.remainingCells, SaveField.intF s.remainingMines], false⟩)
            (allPairs n)).1,
           ⟨[SaveField.boolF s.gameOver, SaveField.boolF s.gameWon, SaveField.floatF s.gameTime,
             SaveField.intF s.remainingCells, SaveField.intF s.remainingMines], false⟩) :=
      Prod.ext rfl hrd
    simp only [LoadGame, rdInt_cons, Int.toNat_natCast,
      if_neg (show ¬((n : Int) < 0) from by omega)]
    rw [hsplit]
    simp only [rdBool_cons, rdState_cons, rdFloat_cons, rdInt_cons]
  rw [key]
  refine ⟨rfl, by rw [hsz], ?_, rfl, rfl, rfl, rfl, rfl⟩
  intro r c hr hc
  exact hval (r, c) (mem_allPairs.mpr ⟨hr, hc⟩)

/-- Witness for C6 on a concrete mixed-state 3×3 session (one revealed cell,
one flag): the full load result coincides with the saved session. -/
theorem c6_save_load_roundtrip_witness :
    (LoadGame exState3 (some (SaveGame exMix3))).1 = true ∧
    getCell (LoadGame exState3 (some (SaveGame exMix3))).2.grid 2 2
      = getCell exMix3.grid 2 2 ∧
    (LoadGame exState3 (some (SaveGame exMix3))).2.remainingCells
      = exMix3.remainingCells := by
  obtain ⟨h1, h2, h3, h4, h5, h6, h7, h8⟩ := c6_save_load_roundtrip exMix3 exState3 3
    (by decide) (by decide) (by decide)
  exact ⟨h1, h3 2 2 (by decide) (by decide), h7⟩

/-- C7 counterexample: on a concrete session, loading a stream that is
truncated right after its leading size field returns `true` — success, not
failure — and the in-memory session has been overwritten (its grid is now the
3×3 of value-initialized cells, not the saved layout). -/
theorem c7_truncated_counterexample :
    (LoadGame exState3 (some [SaveField.intF 3])).1 = true ∧
    (LoadGame exState3 (some [SaveField.intF 3])).2 ≠ exState3 := by
  refine ⟨rfl, by decide⟩

/-- C7 (amended): `Game::LoadGame` reports failure only when the file cannot
be opened, and only then is the session guaranteed untouched; once the file
opens and a nonnegative size is read, the function returns success no matter
how truncated the stream is (the source never checks the stream state after
opening), overwriting the session with the partially-read data — missing cells
stay value-initialized and missing trailing scalars keep their previous
values. -/
theorem c7_load_failure_amended (s : GameState) :
    LoadGame s none = (false, s) ∧
    (∀ (v : Int) (fs : List SaveField), 0 ≤ v →
      (LoadGame s (some (SaveField.intF v :: fs))).1 = true) := by
  refine ⟨rfl, fun v fs hv => ?_⟩
  simp only [LoadGame, rdInt_cons, if_neg (not_lt.mpr hv)]

/-- Witness for the amended C7 at a concrete session. -/
theorem c7_load_failure_amended_witness :
    LoadGame exState3 none = (false, exState3) ∧
    (LoadGame exState3 (some [SaveField.intF 3])).1 = true := by
  obtain ⟨h1, h2⟩ := c7_load_failure_amended exState3
  exact ⟨h1, h2 3 [] (by decide)⟩

/-! ### C1: the bookkeeping invariant -/

theorem minesEq_refl (g : Grid) : MinesEq g g := fun _ _ => ⟨rfl, rfl⟩

theorem minesEq_trans {g1 g2 g3 : Grid} (h1 : MinesEq g1 g2) (h2 : MinesEq g2 g3) :
    MinesEq g1 g3 := fun r c =>
  ⟨(h2 r c).1.trans (h1 r c).1, (h2 r c).2.trans (h1 r c).2⟩

theorem minesEq_setCellState (g : Grid) (a b : Nat) (st : CellState) :
    MinesEq g (setCellState g a b st) := fun r c =>
  ⟨getCell_setCellState_hasMine g a b st r c, getCell_setCellState_adj g a b st r c⟩

theorem adjOK_transport {s s' : GameState} (hA : AdjOK s)
    (hsz : s'.currentGridSize = s.currentGridSize) (hm : MinesEq s.grid s'.grid) :
    AdjOK s' := by
  intro p hp hmine hadj d hd hvd
  rw [hsz] at hp
  have h1 : (getCell s.grid p.1 p.2).hasMine = false := by
    rw [← (hm p.1 p.2).1]
    exact hmine
  have h2 : (getCell s.grid p.1 p.2).adjacentMines = 0 := by
    rw [← (hm p.1 p.2).2]
    exact hadj
  have hvd' : IsValidCell s ((p.1 : Int) + d.1) ((p.2 : Int) + d.2) = true := by
    unfold IsValidCell at hvd ⊢
    rw [← hsz]
    exact hvd
  have hres := hA p hp h1 h2 d hd hvd'
  unfold cellAt at hres ⊢
  rw [cellAtG_hasMine_congr (fun r c => (hm r c).1)]
  exact hres

theorem checkWin_grid (t : GameState) : (CheckWinCondition t).grid = t.grid := by
  unfold CheckWinCondition
  split <;> rfl

theorem checkWin_size (t : GameState) :
    (CheckWinCondition t).currentGridSize = t.currentGridSize := by
  unfold CheckWinCondition
  split <;> rfl

theorem checkWin_counter (t : GameState) :
    (CheckWinCondition t).remainingCells = t.remainingCells := by
  unfold CheckWinCondition
  split <;> rfl

theorem winClause_checkWin (t : GameState) : WinClause (CheckWinCondition t) := by
  unfold WinClause CheckWinCondition
  split
  · intro _
    rfl
  · next h =>
      intro h0
      exact absurd h0 h

theorem invariantI_checkWin {t : GameState} (h : InvariantI t) :
    InvariantI (CheckWinCondition t) := by
  unfold InvariantI at h ⊢
  rw [checkWin_grid, checkWin_size, checkWin_counter]
  exact h

theorem wf_checkWin {t : GameState} (h : WF t) : WF (CheckWinCondition t) := by
  unfold WF at h ⊢
  rw [checkWin_size, checkWin_grid]
  exact h

theorem adjOK_checkWin {t : GameState} (h : AdjOK t) : AdjOK (CheckWinCondition t) :=
  adjOK_transport h (checkWin_size t) (by rw [checkWin_grid]; exact minesEq_refl _)

theorem isValid_bounds {s : GameState} {row col : Int} (hv : IsValidCell s row col = true) :
    0 ≤ row ∧ row < s.currentGridSize ∧ 0 ≤ col ∧ col < s.currentGridSize :=
  isValidRC_iff.mp hv

theorem wf_revealStep {s : GameState} (h : WF s) (row col : Int) :
    WF (revealStep s row col) := by
  refine ⟨h.1, ?_⟩
  show WFGrid s.currentGridSize.toNat (setCellState s.grid row.toNat col.toNat CellState.REVEALED)
  exact WFGrid.updateGrid h.2 _ _ _

theorem invariantI_revealStep {s : GameState} {row col : Int} (hWF : WF s)
    (hv : IsValidCell s row col = true)
    (hh : (cellAt s row col).state = CellState.HIDDEN)
    (hnm : (cellAt s row col).hasMine = false)
    (hI : InvariantI s) : InvariantI (revealStep s row col) := by
  have hb := isValid_bounds hv
  have hrt : row.toNat < s.currentGridSize.toNat := by omega
  have hct : col.toNat < s.currentGridSize.toNat := by omega
  have hget : cellAt s row col = getCell s.grid row.toNat col.toNat :=
    cellAtG_eq_getCell _ hb.1 hb.2.2.1
  have hcount : revealedNonMineCount s.currentGridSize.toNat (revealStep s row col).grid
      = revealedNonMineCount s.currentGridSize.toNat s.grid + 1 := by
    unfold revealedNonMineCount
    refine countP_flip_one _ _ _ (row.toNat, col.toNat) (nodup_allPairs _)
      (mem_allPairs.mpr ⟨hrt, hct⟩) ?_ ?_ ?_
    · show ((getCell s.grid row.toNat col.toNat).state == CellState.REVEALED &&
        !(getCell s.grid row.toNat col.toNat).hasMine) = false
      rw [← hget, hh]
      rfl
    · show ((getCell (revealStep s row col).grid row.toNat col.toNat).state ==
        CellState.REVEALED && !(getCell (revealStep s row col).grid row.toNat col.toNat).hasMine)
        = true
      have hcell : getCell (revealStep s row col).grid row.toNat col.toNat
          = { getCell s.grid row.toNat col.toNat with state := CellState.REVEALED } :=
        getCell_setCellState_self _ _ _ _ (by rw [hWF.2.1]; exact hrt)
          (by rw [hWF.2.2 _ hrt]; exact hct)
      have hnm' : (getCell s.grid row.toNat col.toNat).hasMine = false := by
        rw [← hget]
        exact hnm
      rw [hcell]
      show (CellState.REVEALED == CellState.REVEALED &&
        !(getCell s.grid row.toNat col.toNat).hasMine) = true
      rw [hnm']
      rfl
    · intro a _ hax
      have hcell : getCell (revealStep s row col).grid a.1 a.2 = getCell s.grid a.1 a.2 :=
        getCell_setCellState_ne _ _ _ _ _ _
          (fun h => hax (by
            rcases a with ⟨x, y⟩
            simp at h ⊢
            exact ⟨h.1.symm, h.2.symm⟩))
      show ((getCell (revealStep s row col).grid a.1 a.2).state == CellState.REVEALED &&
        !(getCell (revealStep s row col).grid a.1 a.2).hasMine) = _
      rw [hcell]
  unfold InvariantI at hI ⊢
  rw [show (revealStep s row col).currentGridSize = s.currentGridSize from rfl,
    show (revealStep s row col).remainingCells = s.remainingCells - 1 from rfl,
    hcount, hI]
  push_cast
  ring

theorem revealCellFuel_succ_noop (fuel : Nat) (s : GameState) (row col : Int)
    (h : ¬(IsValidCell s row col && (cellAt s row col).state == CellState.HIDDEN) = true) :
    revealCellFuel (fuel + 1) s row col = s := by
  unfold revealCellFuel
  rw [if_neg h]

theorem revealCellFuel_succ_nonmine (fuel : Nat) (s : GameState) (row col : Int)
    (hcond : (IsValidCell s row col && (cellAt s row col).state == CellState.HIDDEN) = true)
    (hnm1 : ¬((cellAt (revealStep s row col) row col).hasMine = true)) :
    revealCellFuel (fuel + 1) s row col =
      CheckWinCondition
        (if (cellAt (revealStep s row col) row col).adjacentMines == 0 then
          offsets9.foldl (fun acc d =>
            if IsValidCell acc (row + d.1) (col + d.2) &&
               (cellAt acc (row + d.1) (col + d.2)).state == CellState.HIDDEN then
              revealCellFuel fuel acc (row + d.1) (col + d.2)
            else acc) (revealStep s row col)
        else revealStep s row col) := by
  conv_lhs => rw [revealCellFuel]
  rw [if_pos hcond, if_neg hnm1]

theorem cascade_foldl_preserves (fuel : Nat)
    (ih : ∀ (s : GameState) (row col : Int), WF s → AdjOK s → InvariantI s →
      (cellAt s row col).hasMine = false →
      WF (revealCellFuel fuel s row col) ∧ AdjOK (revealCellFuel fuel s row col) ∧
      InvariantI (revealCellFuel fuel s row col) ∧
      (revealCellFuel fuel s row col).currentGridSize = s.currentGridSize ∧
      MinesEq s.grid (revealCellFuel fuel s row col).grid)
    (row col : Int) (n0 : Int) (g0 : Grid)
    (hvc : isValidRC n0 row col = true)
    (hc1 : (cellAtG g0 row col).hasMine = false)
    (hc2 : (cellAtG g0 row col).adjacentMines = 0) :
    ∀ (ds : List (Int × Int)), (∀ d ∈ ds, d ∈ offsets9) → ∀ (acc : GameState),
    WF acc → AdjOK acc → InvariantI acc → acc.currentGridSize = n0 →
    MinesEq g0 acc.grid →
    WF (ds.foldl (fun acc d =>
        if IsValidCell acc (row + d.1) (col + d.2) &&
           (cellAt acc (row + d.1) (col + d.2)).state == CellState.HIDDEN then
          revealCellFuel fuel acc (row + d.1) (col + d.2)
        else acc) acc) ∧
    AdjOK (ds.foldl (fun acc d =>
        if IsValidCell acc (row + d.1) (col + d.2) &&
           (cellAt acc (row + d.1) (col + d.2)).state == CellState.HIDDEN then
          revealCellFuel fuel acc (row + d.1) (col + d.2)
        else acc) acc) ∧
    InvariantI (ds.foldl (fun acc d =>
        if IsValidCell acc (row + d.1) (col + d.2) &&
           (cellAt acc (row + d.1) (col + d.2)).state == CellState.HIDDEN then
          revealCellFuel fuel acc (row + d.1) (col + d.2)
        else acc) acc) ∧
    (ds.foldl (fun acc d =>
        if IsValidCell acc (row + d.1) (col + d.2) &&
           (cellAt acc (row + d.1) (col + d.2)).state == CellState.HIDDEN then
          revealCellFuel fuel acc (row + d.1) (col + d.2)
        else acc) acc).currentGridSize = n0 ∧
    MinesEq g0 (ds.foldl (fun acc d =>
        if IsValidCell acc (row + d.1) (col + d.2) &&
           (cellAt acc (row + d.1) (col + d.2)).state == CellState.HIDDEN then
          revealCellFuel fuel acc (row + d.1) (col + d.2)
        else acc) acc).grid := by
  intro ds
  induction ds with
  | nil =>
    intro _ acc hW hA hI hsz hm
    exact ⟨hW, hA, hI, hsz, hm⟩
  | cons d ds ihd =>
    intro hsub acc hW hA hI hsz hm
    rw [List.foldl_cons]
    by_cases hcond : (IsValidCell acc (row + d.1) (col + d.2) &&
        (cellAt acc (row + d.1) (col + d.2)).state == CellState.HIDDEN) = true
    swap
    · rw [if_neg hcond]
      exact ihd (fun e he => hsub e (List.mem_cons_of_mem _ he)) acc hW hA hI hsz hm
    · rw [if_pos hcond]
      rw [Bool.and_eq_true] at hcond
      have hb0 := isValidRC_iff.mp hvc
      have hrt : (row.toNat : Int) = row := Int.toNat_of_nonneg hb0.1
      have hct : (col.toNat : Int) = col := Int.toNat_of_nonneg hb0.2.2.1
      have hmem : (row.toNat, col.toNat) ∈ allPairs acc.currentGridSize.toNat := by
        rw [hsz]
        exact mem_allPairs.mpr ⟨by omega, by omega⟩
      have hcm : (getCell acc.grid row.toNat col.toNat).hasMine = false := by
        rw [(hm row.toNat col.toNat).1, ← cellAtG_eq_getCell g0 hb0.1 hb0.2.2.1]
        exact hc1
      have hca : (getCell acc.grid row.toNat col.toNat).adjacentMines = 0 := by
        rw [(hm row.toNat col.toNat).2, ← cellAtG_eq_getCell g0 hb0.1 hb0.2.2.1]
        exact hc2
      have hvd : IsValidCell acc ((row.toNat : Int) + d.1) ((col.toNat : Int) + d.2) = true := by
        rw [hrt, hct]
        exact hcond.1
      have hnbm := hA (row.toNat, col.toNat) hmem hcm hca d (hsub d (List.mem_cons_self _ _)) hvd
      rw [hrt, hct] at hnbm
      obtain ⟨hW', hA', hI', hsz', hm'⟩ := ih acc (row + d.1) (col + d.2) hW hA hI hnbm
      exact ihd (fun e he => hsub e (List.mem_cons_of_mem _ he)) _ hW' hA' hI'
        (hsz'.trans hsz) (minesEq_trans hm hm')

theorem revealCellFuel_preserves : ∀ (fuel : Nat) (s : GameState) (row col : Int),
    WF s → AdjOK s → InvariantI s → (cellAt s row col).hasMine = false →
    WF (revealCellFuel fuel s row col) ∧ AdjOK (revealCellFuel fuel s row col) ∧
    InvariantI (revealCellFuel fuel s row col) ∧
    (revealCellFuel fuel s row col).currentGridSize = s.currentGridSize ∧
    MinesEq s.grid (revealCellFuel fuel s row col).grid := by
  intro fuel
  induction fuel with
  | zero =>
    intro s row col hW hA hI _
    exact ⟨hW, hA, hI, rfl, minesEq_refl _⟩
  | succ fuel ih =>
    intro s row col hW hA hI hnm
    by_cases hcond : (IsValidCell s row col &&
        (cellAt s row col).state == CellState.HIDDEN) = true
    swap
    · rw [revealCellFuel_succ_noop fuel s row col hcond]
      exact ⟨hW, hA, hI, rfl, minesEq_refl _⟩
    · have hcond' := hcond
      rw [Bool.and_eq_true, beq_iff_eq] at hcond'
      obtain ⟨hv, hh⟩ := hcond'
      have hs1m : MinesEq s.grid (revealStep s row col).grid := minesEq_setCellState _ _ _ _
      have hs1W : WF (revealStep s row col) := wf_revealStep hW row col
      have hs1sz : (revealStep s row col).currentGridSize = s.currentGridSize := rfl
      have hs1A : AdjOK (revealStep s row col) := adjOK_transport hA hs1sz hs1m
      have hs1I : InvariantI (revealStep s row col) := invariantI_revealStep hW hv hh hnm hI
      have hnm1 : ¬((cellAt (revealStep s row col) row col).hasMine = true) := by
        intro h
        unfold cellAt at h hnm
        rw [cellAtG_hasMine_congr (fun r c => (hs1m r c).1) row col] at h
        rw [hnm] at h
        cases h
      rw [revealCellFuel_succ_nonmine fuel s row col hcond hnm1]
      by_cases hz : ((cellAt (revealStep s row col) row col).adjacentMines == 0) = true
      · rw [if_pos hz]
        have hvc : isValidRC s.currentGridSize row col = true := hv
        have hc1 : (cellAtG (revealStep s row col).grid row col).hasMine = false := by
          rw [cellAtG_hasMine_congr (fun r c => (hs1m r c).1) row col]
          exact hnm
        have hc2 : (cellAtG (revealStep s row col).grid row col).adjacentMines = 0 := by
          rw [beq_iff_eq] at hz
          exact hz
        obtain ⟨hW', hA', hI', hsz', hm'⟩ := cascade_foldl_preserves fuel ih row col
          s.currentGridSize (revealStep s row col).grid hvc hc1 hc2 offsets9
          (fun d hd => hd) (revealStep s row col) hs1W hs1A hs1I hs1sz (minesEq_refl _)
        refine ⟨wf_checkWin hW', adjOK_checkWin hA', invariantI_checkWin hI',
          (checkWin_size _).trans hsz', ?_⟩
        rw [show MinesEq s.grid (CheckWinCondition _).grid
          = MinesEq s.grid _ from by rw [checkWin_grid]]
        exact minesEq_trans hs1m hm'
      · rw [if_neg hz]
        refine ⟨wf_checkWin hs1W, adjOK_checkWin hs1A, invariantI_checkWin hs1I,
          (checkWin_size _).trans hs1sz, ?_⟩
        rw [show MinesEq s.grid (CheckWinCondition (revealStep s row col)).grid
          = MinesEq s.grid (revealStep s row col).grid from by rw [checkWin_grid]]
        exact hs1m

theorem revealCell_preserves_inv (s : GameState) (row col : Int)
    (hW : WF s) (hA : AdjOK s) (hJ : InvariantJ s)
    (hnm : (cellAt s row col).hasMine = false) :
    WF (RevealCell s row col) ∧ AdjOK (RevealCell s row col) ∧
    InvariantJ (RevealCell s row col) := by
  obtain ⟨hW', hA', hI', _, _⟩ := revealCellFuel_preserves
    (s.currentGridSize.toNat * s.currentGridSize.toNat + 1) s row col hW hA hJ.1 hnm
  refine ⟨hW', hA', hI', ?_⟩
  by_cases hcond : (IsValidCell s row col &&
      (cellAt s row col).state == CellState.HIDDEN) = true
  swap
  · show WinClause (revealCellFuel _ s row col)
    rw [revealCellFuel_succ_noop _ s row col hcond]
    exact hJ.2
  · have hs1m : MinesEq s.grid (revealStep s row col).grid := minesEq_setCellState _ _ _ _
    have hnm1 : ¬((cellAt (revealStep s row col) row col).hasMine = true) := by
      intro h
      unfold cellAt at h hnm
      rw [cellAtG_hasMine_congr (fun r c => (hs1m r c).1) row col] at h
      rw [hnm] at h
      cases h
    show WinClause (revealCellFuel _ s row col)
    rw [revealCellFuel_succ_nonmine _ s row col hcond hnm1]
    exact winClause_checkWin _

theorem revealedCount_setState_nonreveal (n : Nat) (g : Grid) (rt ct : Nat) (st : CellState)
    (hstold : (getCell g rt ct).state ≠ CellState.REVEALED) (hstnew : st ≠ CellState.REVEALED) :
    revealedNonMineCount n (setCellState g rt ct st) = revealedNonMineCount n g := by
  unfold revealedNonMineCount
  refine countP_ext _ _ _ (fun a _ => ?_)
  rcases a with ⟨x, y⟩
  by_cases hax : rt = x ∧ ct = y
  · obtain ⟨rfl, rfl⟩ := hax
    show ((getCell (setCellState g rt ct st) rt ct).state == CellState.REVEALED &&
      !(getCell (setCellState g rt ct st) rt ct).hasMine) = _
    unfold setCellState
    rw [getCell_updateGrid]
    split
    · show (st == CellState.REVEALED && !(getCell g rt ct).hasMine) = _
      rw [beq_eq_false_iff_ne.mpr hstnew, beq_eq_false_iff_ne.mpr hstold]
    · rfl
  · show ((getCell (setCellState g rt ct st) x y).state == CellState.REVEALED &&
      !(getCell (setCellState g rt ct st) x y).hasMine) = _
    rw [getCell_setCellState_ne g rt ct st x y hax]

theorem toggleFlag_preserves (s : GameState) (row col : Int)
    (hW : WF s) (hJ : InvariantJ s) : InvariantJ (ToggleFlag s row col) := by
  unfold ToggleFlag
  by_cases hval : IsValidCell s row col = true
  swap
  · rw [if_neg hval]
    exact hJ
  · rw [if_pos hval]
    have hb := isValid_bounds hval
    have hget : cellAt s row col = getCell s.grid row.toNat col.toNat :=
      cellAtG_eq_getCell _ hb.1 hb.2.2.1
    cases hst : (cellAt s row col).state with
    | HIDDEN =>
      have hold : (getCell s.grid row.toNat col.toNat).state ≠ CellState.REVEALED := by
        rw [← hget, hst]
        exact fun h => nomatch h
      show InvariantJ { s with grid := setCellState s.grid row.toNat col.toNat CellState.FLAGGED }
      refine ⟨?_, hJ.2⟩
      have hI := hJ.1
      unfold InvariantI at hI ⊢
      show s.remainingCells =
        ((s.currentGridSize.toNat * s.currentGridSize.toNat : Nat) : Int)
        - (CalculateMineCount s.currentGridSize.toNat : Int)
        - (revealedNonMineCount s.currentGridSize.toNat
            (setCellState s.grid row.toNat col.toNat CellState.FLAGGED) : Int)
      rw [revealedCount_setState_nonreveal s.currentGridSize.toNat s.grid row.toNat col.toNat
        CellState.FLAGGED hold (fun h => nomatch h)]
      exact hI
    | FLAGGED =>
      have hold : (getCell s.grid row.toNat col.toNat).state ≠ CellState.REVEALED := by
        rw [← hget, hst]
        exact fun h => nomatch h
      show InvariantJ { s with grid := setCellState s.grid row.toNat col.toNat CellState.HIDDEN }
      refine ⟨?_, hJ.2⟩
      have hI := hJ.1
      unfold InvariantI at hI ⊢
      show s.remainingCells =
        ((s.currentGridSize.toNat * s.currentGridSize.toNat : Nat) : Int)
        - (CalculateMineCount s.currentGridSize.toNat : Int)
        - (revealedNonMineCount s.currentGridSize.toNat
            (setCellState s.grid row.toNat col.toNat CellState.HIDDEN) : Int)
      rw [revealedCount_setState_nonreveal s.currentGridSize.toNat s.grid row.toNat col.toNat
        CellState.HIDDEN hold (fun h => nomatch h)]
      exact hI
    | REVEALED => exact hJ

theorem revealNbr_dims (n : Int) (g : Grid) (row col : Int) :
    (RevealNeighboringMines n g row col).length = g.length ∧
    (∀ r : Nat, ((RevealNeighboringMines n g row col).getD r []).length
      = (g.getD r []).length) := by
  unfold RevealNeighboringMines
  generalize offsets8 = ds
  induction ds generalizing g with
  | nil => exact ⟨rfl, fun _ => rfl⟩
  | cons d ds ih =>
    rw [List.foldl_cons]
    by_cases hc : (isValidRC n (row + d.1) (col + d.2) &&
        (cellAtG g (row + d.1) (col + d.2)).hasMine) = true
    · rw [if_pos hc]
      obtain ⟨h1, h2⟩ := ih (setCellState g (row + d.1).toNat (col + d.2).toNat
        CellState.REVEALED)
      exact ⟨h1.trans (length_updateGrid _ _ _ _), fun r =>
        (h2 r).trans (rowlen_updateGrid _ _ _ _ r)⟩
    · rw [if_neg hc]
      exact ih g

theorem minesEq_revealNbr (n : Int) (g : Grid) (row col : Int) :
    MinesEq g (RevealNeighboringMines n g row col) := by
  intro r c
  unfold RevealNeighboringMines
  rw [getCell_revealNbr_foldl]
  split <;> exact ⟨rfl, rfl⟩

theorem revealedCount_revealNbr (n : Nat) (nI : Int) (g : Grid) (row col : Int) :
    revealedNonMineCount n (RevealNeighboringMines nI g row col)
      = revealedNonMineCount n g := by
  unfold revealedNonMineCount
  refine countP_ext _ _ _ (fun a _ => ?_)
  show ((getCell (RevealNeighboringMines nI g row col) a.1 a.2).state == CellState.REVEALED &&
    !(getCell (RevealNeighboringMines nI g row col) a.1 a.2).hasMine) = _
  unfold RevealNeighboringMines
  rw [getCell_revealNbr_foldl]
  split
  · next hex =>
      obtain ⟨d, hd, h1, h2, h3, h4⟩ := hex
      have hbv := isValidRC_iff.mp h3
      have hbm : (getCell g a.1 a.2).hasMine = true := by
        rw [← h1, ← h2, ← cellAtG_eq_getCell g hbv.1 hbv.2.2.1]
        exact h4
      show (CellState.REVEALED == CellState.REVEALED && !(getCell g a.1 a.2).hasMine) = _
      rw [hbm]
      simp
  · rfl

theorem lossState_preserves {s : GameState} (hW : WF s) (hA : AdjOK s) (hJ : InvariantJ s)
    (row col : Int) :
    WF { s with
         grid := RevealNeighboringMines s.currentGridSize s.grid row col,
         gameOver := true, waitingForGameOver := true } ∧
    AdjOK { s with
         grid := RevealNeighboringMines s.currentGridSize s.grid row col,
         gameOver := true, waitingForGameOver := true } ∧
    InvariantJ { s with
         grid := RevealNeighboringMines s.currentGridSize s.grid row col,
         gameOver := true, waitingForGameOver := true } := by
  obtain ⟨hd1, hd2⟩ := revealNbr_dims s.currentGridSize s.grid row col
  refine ⟨⟨hW.1, hd1.trans hW.2.1, fun r hr => (hd2 r).trans (hW.2.2 r hr)⟩, ?_, ?_, hJ.2⟩
  · exact adjOK_transport hA rfl (minesEq_revealNbr _ _ _ _)
  · have hI := hJ.1
    unfold InvariantI at hI ⊢
    show s.remainingCells =
      ((s.currentGridSize.toNat * s.currentGridSize.toNat : Nat) : Int)
      - (CalculateMineCount s.currentGridSize.toNat : Int)
      - (revealedNonMineCount s.currentGridSize.toNat
          (RevealNeighboringMines s.currentGridSize s.grid row col) : Int)
    rw [revealedCount_revealNbr]
    exact hI

theorem chordLoop_preserves (row col : Int) : ∀ (ds : List (Int × Int)) (acc : GameState),
    WF acc → AdjOK acc → InvariantJ acc →
    WF (chordRevealLoop row col acc ds) ∧ AdjOK (chordRevealLoop row col acc ds) ∧
    InvariantJ (chordRevealLoop row col acc ds) := by
  intro ds
  induction ds with
  | nil =>
    intro acc hW hA hJ
    exact ⟨hW, hA, hJ⟩
  | cons d ds ih =>
    intro acc hW hA hJ
    have heq : chordRevealLoop row col acc (d :: ds) =
        if IsValidCell acc (row + d.1) (col + d.2) &&
           !((cellAt acc (row + d.1) (col + d.2)).state == CellState.FLAGGED) then
          if (cellAt acc (row + d.1) (col + d.2)).hasMine then
            { acc with
              grid := RevealNeighboringMines acc.currentGridSize acc.grid
                (row + d.1) (col + d.2),
              gameOver := true, waitingForGameOver := true }
          else chordRevealLoop row col (RevealCell acc (row + d.1) (col + d.2)) ds
        else chordRevealLoop row col acc ds := by
      conv_lhs => rw [chordRevealLoop]
    rw [heq]
    by_cases h1 : (IsValidCell acc (row + d.1) (col + d.2) &&
        !((cellAt acc (row + d.1) (col + d.2)).state == CellState.FLAGGED)) = true
    · rw [if_pos h1]
      by_cases h2 : (cellAt acc (row + d.1) (col + d.2)).hasMine = true
      · rw [if_pos h2]
        exact lossState_preserves hW hA hJ (row + d.1) (col + d.2)
      · rw [if_neg h2]
        have hnm : (cellAt acc (row + d.1) (col + d.2)).hasMine = false :=
          Bool.eq_false_iff.mpr h2
        obtain ⟨hW', hA', hJ'⟩ :=
          revealCell_preserves_inv acc (row + d.1) (col + d.2) hW hA hJ hnm
        exact ih (RevealCell acc (row + d.1) (col + d.2)) hW' hA' hJ'
    · rw [if_neg h1]
      exact ih acc hW hA hJ

theorem chordReveal_preserves (s : GameState) (row col : Int)
    (hW : WF s) (hA : AdjOK s) (hJ : InvariantJ s) :
    InvariantJ (ChordReveal s row col) := by
  unfold ChordReveal
  by_cases hg : (IsValidCell s row col && (cellAt s row col).state == CellState.REVEALED &&
      decide (0 < (cellAt s row col).adjacentMines)) = true
  swap
  · rw [if_neg hg]
    exact hJ
  · rw [if_pos hg]
    unfold RevealAdjacentCells
    by_cases hf : (flaggedNeighborCount s row col : Int) = (cellAt s row col).adjacentMines
    swap
    · rw [if_neg hf]
      exact hJ
    · rw [if_pos hf]
      by_cases hmk : chordMistake s row col = true
      · rw [if_pos hmk]
        exact (lossState_preserves hW hA hJ row col).2.2
      · rw [if_neg hmk]
        exact (chordLoop_preserves row col offsets8 s hW hA hJ).2.2

/-- C1 counterexample: a well-formed in-progress 3×3 session satisfying the
bookkeeping invariant, where revealing the mined cell (1,1) breaks the
invariant equation: the counter is decremented by the unconditional
`remainingCells--` of `Game::RevealCell` (line 1212) although the count of
Revealed non-mine cells is unchanged, and the session is Lost, not Won. -/
theorem c1_counterexample_mine_decrement :
    WF exState3 ∧ AdjOK exState3 ∧ InvariantJ exState3 ∧
    (cellAt exState3 1 1).hasMine = true ∧
    ¬ InvariantI (RevealCell exState3 1 1) ∧
    (RevealCell exState3 1 1).remainingCells = exState3.remainingCells - 1 ∧
    (RevealCell exState3 1 1).gameWon = false := by
  decide

/-- C1 (amended): in a well-formed session with consistent adjacency data that
satisfies the bookkeeping invariant `remainingCells = (N² − mineCount) −
(count of Revealed non-mine cells)` together with the win clause
(`remainingCells = 0 → gameWon`), (a) revealing any non-mine target preserves
the invariant and the win clause (the final `CheckWinCondition` sets Won
exactly when the counter reaches 0); (b) revealing a Hidden mined cell still
decrements the counter — the decrement is unconditional in the source — and
ends the session Lost, which is the one operation that breaks the equation;
(c) flag toggling and (d) chord-reveal preserve invariant and win clause. -/
theorem c1_bookkeeping_amended (s : GameState) (row col : Int)
    (hW : WF s) (hA : AdjOK s) (hJ : InvariantJ s) :
    ((cellAt s row col).hasMine = false → InvariantJ (RevealCell s row col)) ∧
    ((IsValidCell s row col = true ∧ (cellAt s row col).state = CellState.HIDDEN ∧
        (cellAt s row col).hasMine = true) →
      (RevealCell s row col).remainingCells = s.remainingCells - 1 ∧
      (RevealCell s row col).gameWon = false ∧ (RevealCell s row col).gameOver = true) ∧
    InvariantJ (ToggleFlag s row col) ∧
    InvariantJ (ChordReveal s row col) := by
  refine ⟨fun hnm => (revealCell_preserves_inv s row col hW hA hJ hnm).2.2, ?_,
    toggleFlag_preserves s row col hW hJ, chordReveal_preserves s row col hW hA hJ⟩
  rintro ⟨hv, hh, hm⟩
  have hb := isValid_bounds hv
  have hm0 : (getCell s.grid row.toNat col.toNat).hasMine = true := by
    unfold cellAt at hm
    rw [cellAtG_eq_getCell s.grid hb.1 hb.2.2.1] at hm
    exact hm
  have hm' : (cellAt (revealStep s row col) row col).hasMine = true := by
    unfold cellAt
    rw [cellAtG_eq_getCell _ hb.1 hb.2.2.1]
    show (getCell (setCellState s.grid row.toNat col.toNat CellState.REVEALED)
      row.toNat col.toNat).hasMine = true
    rw [getCell_setCellState_hasMine]
    exact hm0
  have key : RevealCell s row col =
      { revealStep s row col with
          gameOver := true, gameWon := false, waitingForGameOver := true,
          grid := revealAllMinesGrid (revealStep s row col).currentGridSize.toNat
                    (revealStep s row col).grid } := by
    unfold RevealCell revealCellFuel
    rw [if_pos (by simp only [Bool.and_eq_true, beq_iff_eq]; exact ⟨hv, hh⟩), if_pos hm']
  rw [key]
  exact ⟨rfl, rfl, rfl⟩

/-- Witness for the amended C1: on the concrete session, a safe reveal and a
flag toggle preserve the invariant, and revealing the mine decrements the
counter. -/
theorem c1_bookkeeping_amended_witness :
    InvariantJ (RevealCell exState3 0 0) ∧
    InvariantJ (ToggleFlag exState3 2 2) ∧
    (RevealCell exState3 1 1).remainingCells = exState3.remainingCells - 1 := by
  obtain ⟨h1, _, _, _⟩ := c1_bookkeeping_amended exState3 0 0 (by decide) (by decide)
    (by decide)
  obtain ⟨_, _, h3, _⟩ := c1_bookkeeping_amended exState3 2 2 (by decide) (by decide)
    (by decide)
  obtain ⟨_, h2, _, _⟩ := c1_bookkeeping_amended exState3 1 1 (by decide) (by decide)
    (by decide)
  exact ⟨h1 (by decide), h3, (h2 ⟨by decide, by decide, by decide⟩).1⟩

end Minesweeper
